import Mathlib

/-!
# Loopring exchange scraper and index weighting: a shallow embedding

The definitions below embed `dia-pkg/exchange-scrapers/LoopringScraper.go`.
Library code the scraper calls (IEEE-754 binary64 arithmetic, `math.Pow`,
`strconv.ParseInt`, `strconv.ParseFloat`, `strings.Split`) is modelled first,
from the Go documentation of those functions; the scraper itself follows, then
`CalculateWeights` of `internal/pkg/indexCalculationService/indexCalculation.go`
over the exact rationals. The properties come after all definitions.
-/

namespace Loopring

/-! ## IEEE-754 binary64 -/

/-- A binary64 value. `fin neg m e` stands for `(-1)^neg * m * 2^e`; the values
produced by `Float64.round` have `m < 2^53`, `-1074 ≤ e ≤ 971`, and `2^52 ≤ m`
unless `e = -1074` (zero and the subnormals). -/
inductive Float64 where
  | nan
  | inf (neg : Bool)
  | fin (neg : Bool) (m : Nat) (e : Int)
deriving DecidableEq, Repr

namespace Float64

/-- Number of binary digits of `n`, added to `acc`; the first argument bounds
the recursion. -/
def bitLenAux : Nat → Nat → Nat → Nat
  | 0, _, acc => acc
  | fuel + 1, n, acc => if n = 0 then acc else bitLenAux fuel (n / 2) (acc + 1)

/-- Number of binary digits of `n` (`0` for `0`). -/
def bitLen (n : Nat) : Nat := bitLenAux n n 0

/-- Numerator and denominator of `n / d * 2^(-e)`. -/
def scale (n d : Nat) (e : Int) : Nat × Nat :=
  match e with
  | Int.ofNat k => (n, d * 2 ^ k)
  | Int.negSucc k => (n * 2 ^ (k + 1), d)

/-- Round the non-negative rational `n / d` to the nearest binary64 value, ties
to even, with sign `neg`; a result beyond the largest finite value is an
infinity. -/
def round (neg : Bool) (n d : Nat) : Float64 :=
  if n = 0 ∨ d = 0 then fin neg 0 (-1074) else
  let e0 : Int := (bitLen n : Int) - (bitLen d : Int) - 52
  let e1 : Int := if 2 ^ 52 ≤ (scale n d e0).1 / (scale n d e0).2 then e0 else e0 - 1
  let e : Int := if e1 < -1074 then -1074 else e1
  let q := (scale n d e).1 / (scale n d e).2
  let r := (scale n d e).1 % (scale n d e).2
  let q1 := if (scale n d e).2 < 2 * r ∨ (2 * r = (scale n d e).2 ∧ q % 2 = 1) then q + 1 else q
  if q1 = 2 ^ 53 then
    (if 971 < e + 1 then inf neg else fin neg (2 ^ 52) (e + 1))
  else
    (if 971 < e then inf neg else fin neg q1 e)

/-- The value `m * 2^e` as a fraction of naturals. -/
def frac (m : Nat) (e : Int) : Nat × Nat := scale m 1 (-e)

/-- The binary64 nearest to the natural number `n`. -/
def ofNat (n : Nat) : Float64 := round false n 1

/-- Unary minus: flips the sign bit; a NaN stays a NaN. -/
def neg : Float64 → Float64
  | nan => nan
  | inf s => inf (!s)
  | fin s m e => fin (!s) m e

/-- Correctly rounded product. -/
def mul : Float64 → Float64 → Float64
  | nan, _ => nan
  | _, nan => nan
  | inf s, inf t => inf (xor s t)
  | inf s, fin t m _ => if m = 0 then nan else inf (xor s t)
  | fin s m _, inf t => if m = 0 then nan else inf (xor s t)
  | fin s m e, fin t k f =>
    round (xor s t) ((frac m e).1 * (frac k f).1) ((frac m e).2 * (frac k f).2)

/-- Correctly rounded quotient. -/
def div : Float64 → Float64 → Float64
  | nan, _ => nan
  | _, nan => nan
  | inf _, inf _ => nan
  | inf s, fin t _ _ => inf (xor s t)
  | fin s _ _, inf t => fin (xor s t) 0 (-1074)
  | fin s m e, fin t k f =>
    if k = 0 then (if m = 0 then nan else inf (xor s t))
    else round (xor s t) ((frac m e).1 * (frac k f).2) ((frac m e).2 * (frac k f).1)

/-- The comparison `x < 2^(-1)` for a finite non-negative `x`, as used by `math.Pow`. -/
def ltHalf : Float64 → Bool
  | nan => false
  | inf s => s
  | fin s m e => if s then decide (m ≠ 0) else decide (2 * (frac m e).1 < (frac m e).2)

/-- The value `x * 2^k`, correctly rounded (`math.Ldexp`). -/
def ldexp : Float64 → Int → Float64
  | nan, _ => nan
  | inf s, _ => inf s
  | fin s m e, k => round s (frac m (e + k)).1 (frac m (e + k)).2

/-- The float64 constant `0`. -/
def zero : Float64 := fin false 0 (-1074)

/-! ### `math.Pow(10, y)` for an integer-valued `y ≥ 0`

`math.Pow` returns `1` for `y == 0` and `x` for `y == 1`, an infinity when
`y ≥ 2^63`, and otherwise multiplies by repeated squaring on the `Frexp`
decomposition of `x` (`10 = 0.625 * 2^4`) before a final `Ldexp`. -/

/-- The squaring loop of `math.Pow`: `for i := int64(yi); i != 0; i >>= 1`.
The first argument bounds the number of iterations (an `int64` has 63 value
bits). Returns `(a1, ae)`. -/
def powLoop : Nat → Nat → Float64 → Int → Float64 → Int → Float64 × Int
  | 0, _, a1, ae, _, _ => (a1, ae)
  | fuel + 1, i, a1, ae, x1, xe =>
    if i = 0 then (a1, ae)
    else if xe < -4096 ∨ 4096 < xe then (a1, ae + xe)
    else
      let a1n := if i % 2 = 1 then mul a1 x1 else a1
      let aen := if i % 2 = 1 then ae + xe else ae
      let x2 := mul x1 x1
      if ltHalf x2 then powLoop fuel (i / 2) a1n aen (mul x2 (ofNat 2)) (xe * 2 - 1)
      else powLoop fuel (i / 2) a1n aen x2 (xe * 2)

/-- The call `math.Pow(10, y)` where `y` is the float64 holding the natural number `y`. -/
def Pow10 (y : Nat) : Float64 :=
  if y = 0 then ofNat 1
  else if y = 1 then ofNat 10
  else if 2 ^ 63 ≤ y then inf false
  else ldexp (powLoop 64 y (ofNat 1) 0 (round false 5 8) 4).1 (powLoop 64 y (ofNat 1) 0 (round false 5 8) 4).2

end Float64

/-! ## `strconv` -/

/-- The two error kinds of `strconv.NumError`. -/
inductive NumError where
  | ErrSyntax
  | ErrRange
deriving DecidableEq, Repr

/-- Value of a decimal digit character. -/
def digitVal (c : Char) : Option Nat :=
  if '0' ≤ c ∧ c ≤ '9' then some (c.toNat - 48) else none

/-- The digit loop of `strconv.ParseUint(s, 10, 64)`: a byte that is not a
decimal digit is a syntax error, and the first step at which the accumulated
value leaves the `uint64` range returns `2^64 - 1` with a range error. -/
def parseUintLoop : List Char → Nat → Nat × Option NumError
  | [], n => (n, none)
  | c :: cs, n =>
    match digitVal c with
    | none => (0, some NumError.ErrSyntax)
    | some d =>
      if (2 ^ 64 - 1) / 10 + 1 ≤ n then (2 ^ 64 - 1, some NumError.ErrRange)
      else if 2 ^ 64 - 1 < n * 10 + d then (2 ^ 64 - 1, some NumError.ErrRange)
      else parseUintLoop cs (n * 10 + d)

/-- The call `strconv.ParseUint(s, 10, 64)` on the bytes of `s`. -/
def ParseUint (cs : List Char) : Nat × Option NumError :=
  match cs with
  | [] => (0, some NumError.ErrSyntax)
  | _ => parseUintLoop cs 0

/-- The sign handling and range check of `strconv.ParseInt` after `ParseUint`
returned `r` for the unsigned part. -/
def parseIntFinish (isNeg : Bool) (r : Nat × Option NumError) : Int × Option NumError :=
  if r.2 = some NumError.ErrSyntax then (0, some NumError.ErrSyntax)
  else if !isNeg ∧ 2 ^ 63 ≤ r.1 then (2 ^ 63 - 1, some NumError.ErrRange)
  else if isNeg ∧ 2 ^ 63 < r.1 then (-(2 ^ 63), some NumError.ErrRange)
  else if isNeg then (-(r.1 : Int), none)
  else ((r.1 : Int), none)

/-- The call `strconv.ParseInt(s, 10, 64)`: the value and the error, if any. -/
def ParseInt (s : String) : Int × Option NumError :=
  match s.toList with
  | [] => (0, some NumError.ErrSyntax)
  | '+' :: cs => parseIntFinish false (ParseUint cs)
  | '-' :: cs => parseIntFinish true (ParseUint cs)
  | cs => parseIntFinish false (ParseUint cs)

/-! ### `strconv.ParseFloat(s, 64)`

The accepted grammar is the one of `strconv`: the special values `inf`,
`infinity` (optionally signed) and `nan` in any letter case, decimal numbers
with optional fraction and `e` exponent, hexadecimal numbers `0x…p…` with a
mandatory `p` exponent, and `_` between digits. The digits are accumulated
exactly and rounded once, which is the result `strconv` documents (nearest
value, ties to even; `±Inf` with `ErrRange` beyond the largest finite value;
`0` with `ErrSyntax` for a malformed string). -/

/-- ASCII lower-casing of an upper-case letter, as in `commonPrefixLenIgnoreCase`. -/
def lowerAZ (c : Char) : Char :=
  if 'A' ≤ c ∧ c ≤ 'Z' then Char.ofNat (c.toNat + 32) else c

/-- Length of the longest common prefix of `s` (letter case ignored) and `p`. -/
def commonPrefixLenIgnoreCase : List Char → List Char → Nat
  | c :: s, d :: p => if lowerAZ c = d then commonPrefixLenIgnoreCase s p + 1 else 0
  | _, _ => 0

/-- The infinity branch of `special`: `nsign` bytes of sign were consumed before `s`. -/
def specialInf (isNeg : Bool) (nsign : Nat) (s : List Char) : Option (Float64 × Nat) :=
  if commonPrefixLenIgnoreCase s "infinity".toList = 8 then some (Float64.inf isNeg, nsign + 8)
  else if 3 ≤ commonPrefixLenIgnoreCase s "infinity".toList then some (Float64.inf isNeg, nsign + 3)
  else none

/-- The function `special` of `strconv`: recognises a leading special value and
returns it with the number of bytes consumed. -/
def special : List Char → Option (Float64 × Nat)
  | [] => none
  | '+' :: s => specialInf false 1 s
  | '-' :: s => specialInf true 1 s
  | c :: s =>
    if c = 'i' ∨ c = 'I' then specialInf false 0 (c :: s)
    else if c = 'n' ∨ c = 'N' then
      (if commonPrefixLenIgnoreCase (c :: s) "nan".toList = 3 then some (Float64.nan, 3) else none)
    else none

/-- Value of a hexadecimal letter digit `a`–`f` or `A`–`F`. -/
def hexLetterVal (c : Char) : Option Nat :=
  if 'a' ≤ c ∧ c ≤ 'f' then some (c.toNat - 97 + 10)
  else if 'A' ≤ c ∧ c ≤ 'F' then some (c.toNat - 65 + 10)
  else none

/-- State of the mantissa loop of `readFloat`. -/
structure MantState where
  mantissa : Nat
  nd : Nat
  dp : Int
  sawdot : Bool
  sawdigits : Bool
  underscores : Bool
deriving DecidableEq, Repr

/-- The mantissa loop of `readFloat` in base `base` (10 or 16); returns the final
state and the unread rest of the input. -/
def readMantissa (base : Nat) : List Char → MantState → MantState × List Char
  | [], st => (st, [])
  | c :: cs, st =>
    if c = '_' then readMantissa base cs { st with underscores := true }
    else if c = '.' then
      (if st.sawdot then (st, c :: cs)
       else readMantissa base cs { st with sawdot := true, dp := st.nd })
    else
      match digitVal c with
      | some d =>
        if c = '0' ∧ st.nd = 0 then
          readMantissa base cs { st with sawdigits := true, dp := st.dp - 1 }
        else
          readMantissa base cs
            { st with sawdigits := true, nd := st.nd + 1, mantissa := st.mantissa * base + d }
      | none =>
        match hexLetterVal c with
        | some d =>
          if base = 16 then
            readMantissa base cs
              { st with sawdigits := true, nd := st.nd + 1, mantissa := st.mantissa * 16 + d }
          else (st, c :: cs)
        | none => (st, c :: cs)

/-- The exponent digit loop of `readFloat`: digits and underscores; the value
stops growing once it has reached `10000`. Returns the value, whether an
underscore was seen, and the unread rest. -/
def readExpDigits : List Char → Nat → Bool → Nat × Bool × List Char
  | [], e, u => (e, u, [])
  | c :: cs, e, u =>
    if c = '_' then readExpDigits cs e true
    else
      match digitVal c with
      | some d => readExpDigits cs (if e < 10000 then e * 10 + d else e) u
      | none => (e, u, c :: cs)

/-- The optional exponent part of `readFloat`, entered when the next byte is the
exponent letter: `none` when the exponent is malformed. -/
def readExponent : List Char → Option (Int × Bool × List Char)
  | [] => none
  | '+' :: c :: cs =>
    if (digitVal c).isSome then
      some (((readExpDigits (c :: cs) 0 false).1 : Int), (readExpDigits (c :: cs) 0 false).2)
    else none
  | '-' :: c :: cs =>
    if (digitVal c).isSome then
      some (-((readExpDigits (c :: cs) 0 false).1 : Int), (readExpDigits (c :: cs) 0 false).2)
    else none
  | c :: cs =>
    if (digitVal c).isSome then
      some (((readExpDigits (c :: cs) 0 false).1 : Int), (readExpDigits (c :: cs) 0 false).2)
    else none

/-- The scan of `underscoreOK` over the number proper; `saw` is the class of the
last byte seen (`'0'` digit, `'_'` underscore, `'!'` other, `'^'` start). -/
def underscoreScan (hex : Bool) : List Char → Char → Bool
  | [], saw => saw ≠ '_'
  | c :: cs, saw =>
    if (digitVal c).isSome ∨ (hex ∧ (hexLetterVal c).isSome) then underscoreScan hex cs '0'
    else if c = '_' then (if saw ≠ '0' then false else underscoreScan hex cs '_')
    else if saw = '_' then false
    else underscoreScan hex cs '!'

/-- The prefix handling of `underscoreOK` after the optional sign. -/
def underscoreBody : List Char → Bool
  | '0' :: c :: cs =>
    if c = 'b' ∨ c = 'B' ∨ c = 'o' ∨ c = 'O' then underscoreScan false cs '0'
    else if c = 'x' ∨ c = 'X' then underscoreScan true cs '0'
    else underscoreScan false ('0' :: c :: cs) '^'
  | cs => underscoreScan false cs '^'

/-- The function `underscoreOK` of `strconv`: underscores only between digits. -/
def underscoreOK : List Char → Bool
  | '+' :: cs => underscoreBody cs
  | '-' :: cs => underscoreBody cs
  | cs => underscoreBody cs

/-- What `readFloat` returns on success: the mantissa, the exponent of the base
(`10`, or `2` when `hex`), the sign, and the unread rest of the input. -/
structure ReadFloat where
  mantissa : Nat
  exp : Int
  isNeg : Bool
  hex : Bool
  rest : List Char
deriving DecidableEq, Repr

/-- The part of `readFloat` after the sign and base prefix: mantissa, exponent,
underscore check. `all` is the whole input, `body` what follows sign and prefix. -/
def readFloatBody (all : List Char) (isNeg hex : Bool) (body : List Char) : Option ReadFloat :=
  let m := readMantissa (if hex then 16 else 10) body ⟨0, 0, 0, false, false, false⟩
  if !m.1.sawdigits then none else
  let dp0 : Int := if m.1.sawdot then m.1.dp else m.1.nd
  let dp1 : Int := if hex then dp0 * 4 else dp0
  let nd1 : Int := if hex then (m.1.nd : Int) * 4 else m.1.nd
  let finish (dp : Int) (u : Bool) (rest : List Char) : Option ReadFloat :=
    if u ∧ !underscoreOK (all.take (all.length - rest.length)) then none
    else some ⟨m.1.mantissa, if m.1.mantissa = 0 then 0 else dp - nd1, isNeg, hex, rest⟩
  match m.2 with
  | c :: cs =>
    if (hex ∧ (c = 'p' ∨ c = 'P')) ∨ (!hex ∧ (c = 'e' ∨ c = 'E')) then
      match readExponent cs with
      | none => none
      | some (e, u, rest) => finish (dp1 + e) (m.1.underscores || u) rest
    else if hex then none
    else finish dp1 m.1.underscores (c :: cs)
  | [] => if hex then none else finish dp1 m.1.underscores []

/-- The base-prefix step of `readFloat`: a leading `0x` followed by at least one
more byte selects hexadecimal. -/
def readFloatPrefix (all : List Char) (isNeg : Bool) : List Char → Option ReadFloat
  | '0' :: x :: c :: cs =>
    if x = 'x' ∨ x = 'X' then readFloatBody all isNeg true (c :: cs)
    else readFloatBody all isNeg false ('0' :: x :: c :: cs)
  | cs => readFloatBody all isNeg false cs

/-- The function `readFloat` of `strconv`. -/
def readFloat (s : List Char) : Option ReadFloat :=
  match s with
  | [] => none
  | '+' :: cs => readFloatPrefix s false cs
  | '-' :: cs => readFloatPrefix s true cs
  | cs => readFloatPrefix s false cs

/-- The rounded value of a successfully read number, with `ErrRange` when it
overflows to an infinity. -/
def floatOfRead (r : ReadFloat) : Float64 × Option NumError :=
  let b : Nat := if r.hex then 2 else 10
  let v : Float64 :=
    match r.exp with
    | Int.ofNat k => Float64.round r.isNeg (r.mantissa * b ^ k) 1
    | Int.negSucc k => Float64.round r.isNeg r.mantissa (b ^ (k + 1))
  match v with
  | Float64.inf _ => (v, some NumError.ErrRange)
  | _ => (v, none)

/-- The call `strconv.ParseFloat(s, 64)`: the value and the error, if any. -/
def ParseFloat (s : String) : Float64 × Option NumError :=
  match special s.toList with
  | some (v, n) => if n = s.toList.length then (v, none) else (Float64.zero, some NumError.ErrSyntax)
  | none =>
    match readFloat s.toList with
    | none => (Float64.zero, some NumError.ErrSyntax)
    | some r =>
      match r.rest with
      | [] => floatOfRead r
      | _ => (Float64.zero, some NumError.ErrSyntax)

/-! ## `strings.Split` -/

/-- The pieces of `s` between occurrences of the byte `sep`; never empty. -/
def splitChars (sep : Char) : List Char → List (List Char)
  | [] => [[]]
  | c :: cs =>
    if c = sep then [] :: splitChars sep cs
    else
      match splitChars sep cs with
      | [] => [[c]]
      | h :: t => (c :: h) :: t

/-- The call `strings.Split(s, "-")`. -/
def Split (s : String) : List String :=
  (splitChars '-' s.toList).map String.mk

/-! ## Go maps with string keys -/

/-- A `map[string]V`: a list of entries with pairwise distinct keys. Go leaves the
order in which `range` visits a map unspecified; the model visits the entries
in stored order. -/
structure GoMap (V : Type) where
  entries : List (String × V)
  nodup : (entries.map Prod.fst).Nodup
deriving DecidableEq

namespace GoMap

variable {V : Type}

/-- The empty map (`make(map[string]V)`). -/
def empty : GoMap V := ⟨[], List.nodup_nil⟩

/-- The keys of the map, in the order `range` visits them. -/
def keys (m : GoMap V) : List String := m.entries.map Prod.fst

/-- The lookup `m[k]` with the comma-ok result as an option. -/
def lookup (m : GoMap V) (k : String) : Option V :=
  (m.entries.find? (fun e => e.1 == k)).map Prod.snd

/-- The assignment `m[k] = v`. -/
def insert (m : GoMap V) (k : String) (v : V) : GoMap V :=
  ⟨(k, v) :: m.entries.filter (fun e => e.1 != k), by
    rw [List.map_cons, List.nodup_cons]
    refine ⟨?_, m.nodup.sublist (List.Sublist.map _ (List.filter_sublist _))⟩
    intro hk
    obtain ⟨e, he, hek⟩ := List.mem_map.1 hk
    have := (List.mem_filter.1 he).2
    simp [hek] at this⟩

end GoMap

/-! ## Types of package `dia` and wire types -/

/-- Modelled from the spec: `dia.Asset`, the "token identity" of the canonical
trade record; its declaration is not among the sources. The fields are those
the sources read or write (`Symbol`, `Address`, `Blockchain`). -/
structure Asset where
  Symbol : String
  Address : String
  Blockchain : String
deriving DecidableEq, Repr

/-- Modelled from the spec: `dia.Pair`, the underlying base/quote token identity
of an exchange pair; its declaration is not among the sources. -/
structure Pair where
  QuoteToken : Asset
  BaseToken : Asset
deriving DecidableEq, Repr

/-- Modelled from the spec: `dia.ExchangePair` (trading pair with its
verification flag and underlying pair); its declaration is not among the sources. -/
structure ExchangePair where
  Symbol : String
  ForeignName : String
  Exchange : String
  Verified : Bool
  UnderlyingPair : Pair
deriving DecidableEq, Repr

/-- Modelled from the spec: `dia.Trade`, the canonical trade record, with the
fields `mainLoop` fills; its declaration is not among the sources. `Time` is the
Unix second `sec` of `time.Unix(sec, 0)`. -/
structure Trade where
  Symbol : String
  Pair : String
  Price : Float64
  Time : Int
  Volume : Float64
  Source : String
  VerifiedPair : Bool
  BaseToken : Asset
  QuoteToken : Asset
deriving DecidableEq, Repr

/-- The struct `LoopringTopic`. -/
structure LoopringTopic where
  Topic : String
  Market : String
  Count : Int
  Snapshot : Bool
deriving DecidableEq, Repr

/-- The struct `WebSocketRequest`. -/
structure WebSocketRequest where
  Op : String
  Sequence : Int
  Topics : List LoopringTopic
deriving DecidableEq, Repr

/-- The anonymous struct of the field `Topic` of `WebSocketResponse`. -/
structure ResponseTopic where
  Topic : String
  Market : String
deriving DecidableEq, Repr

/-- The struct `WebSocketResponse`. -/
structure WebSocketResponse where
  Topic : ResponseTopic
  Ts : Int
  Data : List (List String)
deriving DecidableEq, Repr

/-! ## The scraper session -/

/-- An effect of the session on the outside world, in program order. -/
inductive Event where
  /-- The call `wsDialer.Dial(url, nil)`; `ok` tells whether it returned a connection. -/
  | dial (url : String) (ok : Bool)
  /-- The call `s.wsClient.WriteJSON(wr)` on the current connection. -/
  | write (wr : WebSocketRequest)
  /-- The send `s.chanTrades <- t`, completed. -/
  | push (t : Trade)
  /-- The call `s.wsClient.Close()`. -/
  | closeTransport
  /-- The statement `close(s.shutdown)`. -/
  | closeShutdown
deriving DecidableEq, Repr

/-- Number of dials recorded in a log. -/
def dials : List Event → Nat
  | [] => 0
  | Event.dial _ _ :: l => dials l + 1
  | _ :: l => dials l

/-- The requests written to the transport, oldest first. -/
def writes : List Event → List WebSocketRequest
  | [] => []
  | Event.write wr :: l => wr :: writes l
  | _ :: l => writes l

/-- The records pushed to the output channel, oldest first. -/
def pushes : List Event → List Trade
  | [] => []
  | Event.push t :: l => t :: pushes l
  | _ :: l => pushes l

/-- Number of calls of the transport's `Close` recorded in a log. -/
def transportCloses : List Event → Nat
  | [] => 0
  | Event.closeTransport :: l => transportCloses l + 1
  | _ :: l => transportCloses l

/-- Number of executions of `close(s.shutdown)` recorded in a log. -/
def shutdownCloses : List Event → Nat
  | [] => 0
  | Event.closeShutdown :: l => shutdownCloses l + 1
  | _ :: l => shutdownCloses l

/-- A websocket connection returned by a successful dial. -/
structure Conn where
  url : String
deriving DecidableEq, Repr

/-- The struct `LoopringPairScraper`; the back pointer `parent` is left out. -/
structure LoopringPairScraper where
  pair : ExchangePair
  closed : Bool
deriving DecidableEq, Repr

/-- The struct `LoopringScraper`. `wsClient` is `none` for the nil pointer a
failed dial leaves; `shutdownClosed` and `shutdownDoneClosed` tell whether the
channels `shutdown` and `shutdownDone` have been closed; `error` is `none` for
a nil error; `log` is the history of effects (the pair-cache handle `db` is
passed to `mainLoop` as an argument instead). -/
structure LoopringScraper where
  wsClient : Option Conn
  decimalsAsset : GoMap Nat
  shutdownClosed : Bool
  shutdownDoneClosed : Bool
  error : Option String
  closed : Bool
  pairScrapers : GoMap LoopringPairScraper
  exchangeName : String
  wsURL : String
  log : List Event
deriving DecidableEq

/-- How a call that returns nothing ends: normally, or in a run-time panic. The
state is the one reached. -/
inductive Outcome where
  | done (s : LoopringScraper)
  | panicked (s : LoopringScraper)
deriving DecidableEq

/-- The state an outcome carries. -/
def Outcome.state : Outcome → LoopringScraper
  | Outcome.done s => s
  | Outcome.panicked s => s

/-- The variable `_LoopringSocketurl`. -/
def _LoopringSocketurl : String := "wss://ws.api3.loopring.io/v3/ws"

/-- The table `decimalAsset` built by `NewLoopringScraper`. Each exponent is the
natural number whose float64 the source stores. -/
def decimalAsset : GoMap Nat :=
  ((((((((((((((((((((((((((((((((GoMap.empty.insert "ETH" 18).insert "WETH" 18).insert "LRC" 18).insert
    "USDT" 6).insert "DAI" 18).insert "LINK" 18).insert "KEEP" 18).insert "USDC" 6).insert
    "DXD" 18).insert "TRB" 18).insert "AUC" 18).insert "RPL" 18).insert "WBTC" 8).insert
    "RENBTC" 8).insert "PAX" 18).insert "MKR" 18).insert "BUSD" 18).insert "SNX" 18).insert
    "GNO" 18).insert "LEND" 18).insert "REN" 18).insert "REP" 18).insert "BNT" 18).insert
    "PBTC" 18).insert "COMP" 18).insert "PNT" 18).insert "PNK" 18).insert "NEST" 18).insert
    "BTU" 18).insert "BZRX" 18).insert "VBZRX" 18).insert "GRID" 12)

/-- The constructor `NewLoopringScraper`, up to the start of the receive loop:
`key` is the `Key` field decoded from the answer of the key endpoint (empty when
the request or the decoding failed) and `dialOk` tells whether the dial
returned a connection. -/
def NewLoopringScraper (exchangeName key : String) (dialOk : Bool) : LoopringScraper :=
  { wsClient := if dialOk then some ⟨_LoopringSocketurl ++ "?wsApiKey=" ++ key⟩ else none
    decimalsAsset := decimalAsset
    shutdownClosed := false
    shutdownDoneClosed := false
    error := none
    closed := false
    pairScrapers := GoMap.empty
    exchangeName := exchangeName
    wsURL := _LoopringSocketurl ++ "?wsApiKey=" ++ key
    log := [Event.dial (_LoopringSocketurl ++ "?wsApiKey=" ++ key) dialOk] }

/-- The method `reconnectToWS`, with `key` and `dialOk` as in `NewLoopringScraper`. -/
def reconnectToWS (key : String) (dialOk : Bool) (s : LoopringScraper) : LoopringScraper :=
  { s with
    wsURL := _LoopringSocketurl ++ "?wsApiKey=" ++ key
    wsClient := if dialOk then some ⟨_LoopringSocketurl ++ "?wsApiKey=" ++ key⟩ else none
    log := s.log ++ [Event.dial (_LoopringSocketurl ++ "?wsApiKey=" ++ key) dialOk] }

/-- The call `s.wsClient.WriteJSON(wr)`: a panic on a nil connection; otherwise
the request is handed to the transport (an error it returns is only logged by
both callers). -/
def WriteJSON (wr : WebSocketRequest) (s : LoopringScraper) : Outcome :=
  match s.wsClient with
  | none => Outcome.panicked s
  | some _ => Outcome.done { s with log := s.log ++ [Event.write wr] }

/-- The request `subscribeToALL` builds for the registry key `key`. -/
def resubscribeRequest (key : String) : WebSocketRequest :=
  { Op := "sub", Sequence := 1000,
    Topics := [{ Market := key, Topic := "trade", Count := 20, Snapshot := true }] }

/-- The loop of `subscribeToALL` over the keys still to visit. -/
def subscribeLoop : List String → LoopringScraper → Outcome
  | [], s => Outcome.done s
  | key :: rest, s =>
    match WriteJSON (resubscribeRequest key) s with
    | Outcome.done s1 => subscribeLoop rest s1
    | Outcome.panicked s1 => Outcome.panicked s1

/-- The method `subscribeToALL`. -/
def subscribeToALL (s : LoopringScraper) : Outcome :=
  subscribeLoop s.pairScrapers.keys s

/-- What one iteration of the receive loop gets from outside the session.
`message` is the payload `ReadMessage` returned and `readErr` tells whether it
came with an error (which `mainLoop` only logs); `decode` is the result of
`json.Unmarshal` into a fresh `WebSocketResponse` on a non-empty input (`none`
for an error); `key` and `dialOk` answer a reconnect as in `reconnectToWS`;
`pairCache` is the pair-cache lookup `GetExchangePairCache(exchange, pair name)`,
whose code is not among the sources and which is therefore a parameter: its
error is only logged, so only the pair it returns is kept. -/
structure Incoming where
  readErr : Bool
  message : List UInt8
  decode : List UInt8 → Option WebSocketResponse
  key : String
  dialOk : Bool
  pairCache : String → String → ExchangePair

/-- The call `json.Unmarshal(message, &makemap)`: an empty input is an error
(unexpected end of JSON input); any other input is left to `decode`. -/
def jsonUnmarshal (decode : List UInt8 → Option WebSocketResponse) (message : List UInt8) :
    Option WebSocketResponse :=
  match message with
  | [] => none
  | _ => decode message

/-- The record `mainLoop` builds (lines 224 to 252) once the index expressions
have been read: `price` is `Data[0][4]`, `ts` is `Data[0][0]`, `vol` is
`Data[0][3]`, `asset0` is `asset[0]` and `side` is `Data[0][2]`. The errors of
the three parsers are only logged (or dropped), so only their values are used;
a key missing from the decimal table reads as exponent `0`. -/
def mkTrade (s : LoopringScraper) (pairCache : String → String → ExchangePair)
    (makemap : WebSocketResponse) (price ts vol asset0 side : String) : Trade :=
  { Symbol := asset0
    Pair := makemap.Topic.Market
    Price := (ParseFloat price).1
    Time := Int.tdiv (ParseInt ts).1 1000
    Volume :=
      if side = "SELL" then
        Float64.neg (Float64.div (ParseFloat vol).1
          (Float64.Pow10 ((s.decimalsAsset.lookup asset0).getD 0)))
      else
        Float64.div (ParseFloat vol).1
          (Float64.Pow10 ((s.decimalsAsset.lookup asset0).getD 0))
    Source := s.exchangeName
    VerifiedPair := (pairCache s.exchangeName makemap.Topic.Market).Verified
    BaseToken := (pairCache s.exchangeName makemap.Topic.Market).UnderlyingPair.BaseToken
    QuoteToken := (pairCache s.exchangeName makemap.Topic.Market).UnderlyingPair.QuoteToken }

/-- The record `mainLoop` builds from a decoded frame with first data row `row`
(lines 223 to 252): `none` when an index expression is out of range, which is a
run-time panic. The expressions are evaluated in source order: `Data[0][4]`,
`Data[0][0]`, `Data[0][3]`, `asset[0]`, `Data[0][2]`. -/
def buildTrade (s : LoopringScraper) (pairCache : String → String → ExchangePair)
    (makemap : WebSocketResponse) (row : List String) : Option Trade :=
  match row[4]?, row[0]?, row[3]?, (Split makemap.Topic.Market)[0]?, row[2]? with
  | some price, some ts, some vol, some asset0, some side =>
    some (mkTrade s pairCache makemap price ts vol asset0 side)
  | _, _, _, _, _ => none

/-- The `else` branch of the loop body (lines 221 to 259): what `mainLoop` does
with a frame that decoded to `makemap`. The send on `chanTrades` is recorded
as completed, that is, a consumer takes the record. -/
def handleDecoded (pairCache : String → String → ExchangePair) (makemap : WebSocketResponse)
    (s : LoopringScraper) : Outcome :=
  match makemap.Data with
  | [] => Outcome.done s
  | row :: _ =>
    match buildTrade s pairCache makemap row with
    | none => Outcome.panicked s
    | some t => Outcome.done { s with log := s.log ++ [Event.push t] }

/-- One iteration of the `for` loop of `mainLoop`, from the point where
`ReadMessage` has returned. `Outcome.done` means the loop goes on to its next
iteration. -/
def mainLoopStep (w : Incoming) (s : LoopringScraper) : Outcome :=
  match jsonUnmarshal w.decode w.message with
  | none => subscribeToALL (reconnectToWS w.key w.dialOk s)
  | some makemap => handleDecoded w.pairCache makemap s

/-- How a call of `Close` ends. -/
inductive CloseResult where
  /-- The call returned `err` (`none` for nil). -/
  | returned (err : Option String) (s : LoopringScraper)
  /-- The call waits at `<-s.shutdownDone`, which nothing closes or sends on. -/
  | blocked (s : LoopringScraper)
  /-- The call ended in a run-time panic. -/
  | panicked (s : LoopringScraper)
deriving DecidableEq

/-- The method `LoopringScraper.Close`; `transportErr` is what the transport's
`Close` returns (`none` for nil). -/
def Close (transportErr : Option String) (s : LoopringScraper) : CloseResult :=
  if s.closed then CloseResult.returned (some "LoopringScraper: Already closed") s
  else
    match s.wsClient with
    | none => CloseResult.panicked s
    | some _ =>
      match transportErr with
      | some e => CloseResult.returned (some e) { s with log := s.log ++ [Event.closeTransport] }
      | none =>
        if s.shutdownClosed then
          CloseResult.panicked { s with log := s.log ++ [Event.closeTransport] }
        else if s.shutdownDoneClosed then
          CloseResult.returned s.error
            { s with shutdownClosed := true
                     log := s.log ++ [Event.closeTransport, Event.closeShutdown] }
        else
          CloseResult.blocked
            { s with shutdownClosed := true
                     log := s.log ++ [Event.closeTransport, Event.closeShutdown] }

/-- The state a call of `Close` leaves. -/
def CloseResult.state : CloseResult → LoopringScraper
  | CloseResult.returned _ s => s
  | CloseResult.blocked s => s
  | CloseResult.panicked s => s

/-- How a call of `ScrapePair` ends. -/
inductive ScrapeResult where
  /-- The call returned the handle `ps` and a nil error. -/
  | ok (ps : LoopringPairScraper) (s : LoopringScraper)
  /-- The call returned a nil handle and the error `err`. -/
  | failed (err : String) (s : LoopringScraper)
  /-- The call ended in a run-time panic. -/
  | panicked (s : LoopringScraper)
deriving DecidableEq

/-- The request `ScrapePair` builds for the market `market`. -/
def subscribeRequest (market : String) : WebSocketRequest :=
  { Op := "sub", Sequence := 1000,
    Topics := [{ Market := market, Topic := "ticker", Count := 20, Snapshot := true }] }

/-- The method `LoopringScraper.ScrapePair`. -/
def ScrapePair (pair : ExchangePair) (s : LoopringScraper) : ScrapeResult :=
  match s.error with
  | some e => ScrapeResult.failed e s
  | none =>
    if s.closed then ScrapeResult.failed "LoopringScraper: Call ScrapePair on closed scraper" s
    else
      match WriteJSON (subscribeRequest pair.ForeignName)
          { s with pairScrapers := s.pairScrapers.insert pair.ForeignName ⟨pair, false⟩ } with
      | Outcome.done s1 => ScrapeResult.ok ⟨pair, false⟩ s1
      | Outcome.panicked s1 => ScrapeResult.panicked s1

/-- The method `LoopringPairScraper.Pair`. -/
def LoopringPairScraper.Pair (ps : LoopringPairScraper) : ExchangePair := ps.pair

/-- The state a call of `ScrapePair` leaves. -/
def ScrapeResult.state : ScrapeResult → LoopringScraper
  | ScrapeResult.ok _ s => s
  | ScrapeResult.failed _ s => s
  | ScrapeResult.panicked s => s

/-- The text of a market name before its first `-` (the whole name when it has
none): the base symbol in the words of the specification. -/
def textBeforeFirstDash (market : String) : String :=
  String.mk (market.toList.takeWhile (fun c => c != '-'))

/-- The markets named by the topics of a list of requests. -/
def marketsNamed (reqs : List WebSocketRequest) : List String :=
  reqs.flatMap (fun wr => wr.Topics.map (fun t => t.Market))

/-- Whether a float64 is finite and greater than zero. -/
def Float64.isPositiveFinite : Float64 → Bool
  | Float64.fin false m _ => decide (m ≠ 0)
  | _ => false

/-! ## Example inputs -/

/-- A pair-cache answer used in the examples: an unverified pair. -/
def unverifiedPair : ExchangePair :=
  ⟨"", "", "", false, ⟨⟨"", "", ""⟩, ⟨"", "", ""⟩⟩⟩

/-- The decoded frame of scenario A: market `LRC-ETH`, one data row. -/
def scenarioAFrame : WebSocketResponse :=
  { Topic := ⟨"trade", "LRC-ETH"⟩, Ts := 1610000000000,
    Data := [["1610000000000", "0", "SELL", "2000000000000000000", "123.45"]] }

/-- An iteration input whose message decodes to `frame`. -/
def incomingOf (frame : WebSocketResponse) : Incoming :=
  { readErr := false, message := [123, 125], decode := fun _ => some frame,
    key := "k", dialOk := true, pairCache := fun _ _ => unverifiedPair }

/-- The decimal table of scenario A as the specification words it: `ETH` only. -/
def scenarioATable : GoMap Nat := GoMap.empty.insert "ETH" 18

/-- A freshly constructed, connected session whose decimal table is `table`. -/
def sessionWithTable (table : GoMap Nat) : LoopringScraper :=
  { NewLoopringScraper "Loopring" "k" true with decimalsAsset := table }

/-- An exchange pair with foreign name `name`, for the examples. -/
def pairNamed (name : String) : ExchangePair :=
  ⟨textBeforeFirstDash name, name, "Loopring", false, ⟨⟨"", "", ""⟩, ⟨"", "", ""⟩⟩⟩

/-- The session of scenario C: freshly constructed and connected, then
subscribed to `A-B` and to `C-D` through `ScrapePair`. -/
def scenarioCSession : LoopringScraper :=
  (ScrapePair (pairNamed "C-D")
    (ScrapePair (pairNamed "A-B") (NewLoopringScraper "Loopring" "k" true)).state).state

/-- An iteration input whose message fails envelope decoding (a keepalive
`ping`), with a successful re-dial. -/
def incomingUndecodable : Incoming :=
  { readErr := false, message := [112, 105, 110, 103], decode := fun _ => none,
    key := "k2", dialOk := true, pairCache := fun _ _ => unverifiedPair }

/-- A decoded frame with an empty data list. -/
def emptyDataFrame : WebSocketResponse :=
  { Topic := ⟨"trade", "LRC-ETH"⟩, Ts := 1610000000000, Data := [] }

/-- A freshly constructed, connected session. -/
def freshSession : LoopringScraper := NewLoopringScraper "Loopring" "k" true

/-- A decoded frame whose first row holds out-of-range numbers in the
timestamp, raw-volume and price fields. -/
def outOfRangeFrame : WebSocketResponse :=
  { Topic := ⟨"trade", "LRC-ETH"⟩, Ts := 1610000000000,
    Data := [["9223372036854775808", "0", "BUY", "1e999", "-1e999"]] }

/-- A decoded frame whose first row holds text that is not a number in the
timestamp, raw-volume and price fields. -/
def malformedFrame : WebSocketResponse :=
  { Topic := ⟨"trade", "LRC-ETH"⟩, Ts := 1610000000000,
    Data := [["soon", "0", "SELL", "much", "12,5"]] }

/-- A decoded frame whose first row has a single field. -/
def shortRowFrame : WebSocketResponse :=
  { Topic := ⟨"trade", "LRC-ETH"⟩, Ts := 1610000000000, Data := [["1610000000000"]] }

/-- An iteration input for a failed read: `ReadMessage` returned an error and
no bytes; the re-dial succeeds. -/
def incomingReadError : Incoming :=
  { readErr := true, message := [], decode := fun _ => some scenarioAFrame,
    key := "k2", dialOk := true, pairCache := fun _ _ => unverifiedPair }

end Loopring

/-! ## Index weighting: a shallow embedding of `indexCalculation.go`

Arithmetic on `float64` is read over the exact rationals. A quotient by zero,
which is `0` in `ℚ`, does not occur in `CalculateWeights` for positive prices
and supplies, except in capping factors. -/

namespace IndexCalculation

/-- The variable `MAX_RELATIVE_CAP`, `0.3`. -/
def MAX_RELATIVE_CAP : ℚ := 3 / 10

/-- Modelled from the spec: `models.CryptoIndexConstituent`, whose declaration is
not among the sources; the fields are those of the struct literal in
`GetIndexBasket` (lines 54 to 61). -/
structure CryptoIndexConstituent where
  Asset : Loopring.Asset
  Price : ℚ
  CirculatingSupply : ℚ
  Weight : ℚ
  CappingFactor : ℚ
  NumBaseTokens : ℚ
deriving DecidableEq

/-- The local struct `MarketCap` of `CalculateWeights`. -/
structure MarketCap where
  Symbol : String
  RawMarketCap : ℚ
  RelativeCap : ℚ
  CappingFactor : ℚ
deriving DecidableEq

/-- The entry the first loop appends for `constituent` (lines 80 to 86). -/
def newMarketCap (constituent : CryptoIndexConstituent) : MarketCap :=
  ⟨constituent.Asset.Symbol, constituent.CirculatingSupply * constituent.Price, 0, 1⟩

/-- The value of `sumMarketCap` after the first loop (lines 78 to 88). -/
def fullMarketCap (constituents : List CryptoIndexConstituent) : ℚ :=
  constituents.foldl (fun acc c => acc + c.CirculatingSupply * c.Price) 0

/-- The slice `marketCaps` after `sort.Slice` (lines 92 to 94): descending by
`RawMarketCap`. `sort.Slice` does not say in which order it leaves entries of
equal market cap; the model keeps their original order, and the properties
below use only that the result is a permutation in descending order. -/
def sortedMarketCaps (constituents : List CryptoIndexConstituent) : List MarketCap :=
  List.insertionSort (fun a b => b.RawMarketCap ≤ a.RawMarketCap) (constituents.map newMarketCap)

/-- The loop of step 2 (lines 102 to 111) from the point where `offendor` is the
head of `rest`, the entries of `marketCaps` from index `numOffendors` on; an
empty `rest` is the `break`. Returns the final `numOffendors` and
`sumMarketCap`. -/
def offenderLoop : List MarketCap → Nat → ℚ → Nat × ℚ
  | [], numOffendors, sumMarketCap => (numOffendors, sumMarketCap)
  | offendor :: rest, numOffendors, sumMarketCap =>
    if offendor.RawMarketCap * (1 - MAX_RELATIVE_CAP) ^ numOffendors >
        MAX_RELATIVE_CAP * sumMarketCap then
      offenderLoop rest (numOffendors + 1) (sumMarketCap - offendor.RawMarketCap)
    else (numOffendors, sumMarketCap)

/-- The value of `numOffendors` after step 2. -/
def numOffendors (constituents : List CryptoIndexConstituent) : Nat :=
  (offenderLoop (sortedMarketCaps constituents) 0 (fullMarketCap constituents)).1

/-- The value of `sumMarketCap` after step 2. -/
def restMarketCap (constituents : List CryptoIndexConstituent) : ℚ :=
  (offenderLoop (sortedMarketCaps constituents) 0 (fullMarketCap constituents)).2

/-- The value of `uncappedConstituentsMc` after step 3. -/
def uncappedConstituentsMc (constituents : List CryptoIndexConstituent) : ℚ :=
  ((sortedMarketCaps constituents).drop (numOffendors constituents)).foldl
    (fun acc mc => acc + mc.RawMarketCap) 0

/-- An offender after steps 2 and 4: relative cap `MAX_RELATIVE_CAP` (line 103)
and the capping factor of lines 121 to 125. -/
def capOffender (k : Nat) (uncapped : ℚ) (mc : MarketCap) : MarketCap :=
  { mc with
    RelativeCap := MAX_RELATIVE_CAP
    CappingFactor :=
      if uncapped ≠ 0 then
        MAX_RELATIVE_CAP / (mc.RawMarketCap * (1 - MAX_RELATIVE_CAP * k)) * uncapped
      else MAX_RELATIVE_CAP / (mc.RawMarketCap * (1 - MAX_RELATIVE_CAP * k)) }

/-- A non-offender after step 3 (lines 115 and 116). -/
def capNonOffender (k : Nat) (sumMarketCap : ℚ) (mc : MarketCap) : MarketCap :=
  { mc with
    RelativeCap := mc.RawMarketCap / sumMarketCap * (1 - MAX_RELATIVE_CAP * k)
    CappingFactor := 1 }

/-- The slice `marketCaps` after step 4, before the SPICE correction of step 5. -/
def capsBeforeSpice (constituents : List CryptoIndexConstituent) : List MarketCap :=
  ((sortedMarketCaps constituents).take (numOffendors constituents)).map
      (capOffender (numOffendors constituents) (uncappedConstituentsMc constituents)) ++
    ((sortedMarketCaps constituents).drop (numOffendors constituents)).map
      (capNonOffender (numOffendors constituents) (restMarketCap constituents))

/-- The body of the correction loop of step 5 (lines 142 to 150). -/
def correctSpice (correctionFactor correctionDelta : ℚ) (mc : MarketCap) : MarketCap :=
  if mc.Symbol = "SPICE" then
    { mc with RelativeCap := 25 / 1000, CappingFactor := mc.CappingFactor * correctionFactor }
  else
    { mc with
      RelativeCap := mc.RelativeCap - correctionDelta * mc.RelativeCap
      CappingFactor := mc.CappingFactor * (1 - correctionDelta * mc.RelativeCap) }

/-- Step 5 (lines 129 to 152): `none` when no entry has symbol `SPICE`, in which
case `marketCaps[spiceIndex]` is out of range and the call panics. -/
def spiceStep (marketCaps : List MarketCap) : Option (List MarketCap) :=
  match marketCaps.find? (fun mc => mc.Symbol = "SPICE") with
  | none => none
  | some spice =>
    if 25 / 1000 - spice.RelativeCap > 0 then
      some (marketCaps.map
        (correctSpice (25 / 1000 / spice.RelativeCap) (25 / 1000 - spice.RelativeCap)))
    else some marketCaps

/-- The body of the inner loop of step 6 (lines 157 to 160): what becomes of the
constituent `c` when the entry `mc` is written back. -/
def assignWeight (mc : MarketCap) (c : CryptoIndexConstituent) : CryptoIndexConstituent :=
  if mc.Symbol = c.Asset.Symbol then
    { c with CappingFactor := mc.CappingFactor, Weight := mc.RelativeCap }
  else c

/-- The inner loop of step 6 for one entry `mc` (lines 156 to 161). -/
def writeBackOne (mc : MarketCap) (constituents : List CryptoIndexConstituent) :
    List CryptoIndexConstituent :=
  constituents.map (assignWeight mc)

/-- Step 6 (lines 155 to 162). -/
def writeBack (marketCaps : List MarketCap) (constituents : List CryptoIndexConstituent) :
    List CryptoIndexConstituent :=
  marketCaps.foldl (fun cs mc => writeBackOne mc cs) constituents

/-- The function `CalculateWeights`: the constituents it leaves, or `none` when
it panics (an empty list at `marketCaps[0]`, line 99; no `SPICE` entry at
`marketCaps[spiceIndex]`, line 137). The error it returns is always nil. -/
def CalculateWeights (indexSymbol : String) (constituents : List CryptoIndexConstituent) :
    Option (List CryptoIndexConstituent) :=
  if indexSymbol = "SCIFI" then
    match constituents with
    | [] => none
    | _ :: _ =>
      match spiceStep (capsBeforeSpice constituents) with
      | none => none
      | some marketCaps => some (writeBack marketCaps constituents)
  else
    some (constituents.map (fun c =>
      if c.Asset.Symbol = "SPICE" then { c with Weight := 25 / 1000 }
      else { c with Weight := (1 - 25 / 1000) / ((constituents.length : ℚ) - 1) }))

/-- A constituent with the given symbol, price and circulating supply, as
`GetIndexBasket` builds it. -/
def constituentOf (symbol : String) (price supply : ℚ) : CryptoIndexConstituent :=
  ⟨⟨symbol, "", ""⟩, price, supply, 0, 0, 0⟩

/-- A basket of one constituent, `SPICE`. -/
def soloSpice : List CryptoIndexConstituent := [constituentOf "SPICE" 1 1]

/-- A basket of five constituents with market caps `25`, `25`, `1` (`SPICE`),
`25` and `24`: no offender, and an initial SPICE weight of `1/100`. -/
def smallSpiceBasket : List CryptoIndexConstituent :=
  [constituentOf "AAVE" 1 25, constituentOf "UNI" 5 5, constituentOf "SPICE" 1 1,
   constituentOf "SNX" 1 25, constituentOf "MKR" 2 12]

/-- A basket of four constituents with equal market caps, one of them `SPICE`:
no offender, and an initial SPICE weight of `1/4`. -/
def evenBasket : List CryptoIndexConstituent :=
  [constituentOf "AAVE" 1 10, constituentOf "UNI" 2 5, constituentOf "SPICE" 5 2,
   constituentOf "SNX" 10 1]

/-- A basket of five constituents with market caps `1000`, `100`, `10` (`SPICE`),
`1` and `1/10`: four offenders. -/
def steepBasket : List CryptoIndexConstituent :=
  [constituentOf "AAVE" 1 1000, constituentOf "UNI" 1 100, constituentOf "SPICE" 1 10,
   constituentOf "SNX" 1 1, constituentOf "MKR" 1 (1 / 10)]

end IndexCalculation

/-! ## Properties -/

namespace Loopring

open Float64

/-! ### Auxiliary facts -/

theorem splitChars_head (sep : Char) (cs : List Char) :
    (splitChars sep cs)[0]? = some (cs.takeWhile (fun c => c != sep)) := by
  induction cs with
  | nil => rfl
  | cons c cs ih =>
    unfold splitChars
    by_cases h : c = sep
    · simp [h]
    · cases hs : splitChars sep cs with
      | nil => rw [hs] at ih; simp at ih
      | cons x xs =>
        rw [hs] at ih
        simp only [List.getElem?_cons_zero, Option.some.injEq] at ih
        simp [h, ih]

theorem split_head (market : String) :
    (Split market)[0]? = some (textBeforeFirstDash market) := by
  unfold Split textBeforeFirstDash
  rw [List.getElem?_map, splitChars_head]
  rfl

theorem dials_append (l₁ l₂ : List Event) : dials (l₁ ++ l₂) = dials l₁ + dials l₂ := by
  induction l₁ with
  | nil => simp [dials]
  | cons e l ih => cases e <;> simp [dials, ih]; omega

theorem writes_append (l₁ l₂ : List Event) : writes (l₁ ++ l₂) = writes l₁ ++ writes l₂ := by
  induction l₁ with
  | nil => simp [writes]
  | cons e l ih => cases e <;> simp [writes, ih]

theorem transportCloses_append (l₁ l₂ : List Event) :
    transportCloses (l₁ ++ l₂) = transportCloses l₁ + transportCloses l₂ := by
  induction l₁ with
  | nil => simp [transportCloses]
  | cons e l ih => cases e <;> simp [transportCloses, ih]; omega

theorem pushes_append (l₁ l₂ : List Event) : pushes (l₁ ++ l₂) = pushes l₁ ++ pushes l₂ := by
  induction l₁ with
  | nil => simp [pushes]
  | cons e l ih => cases e <;> simp [pushes, ih]

/-- The trade `buildTrade` returns for a row with at least five fields. -/
theorem buildTrade_five (s : LoopringScraper) (pc : String → String → ExchangePair)
    (m : WebSocketResponse) (a0 a1 a2 a3 a4 : String) (tl : List String) :
    buildTrade s pc m (a0 :: a1 :: a2 :: a3 :: a4 :: tl) =
      some (mkTrade s pc m a4 a0 a3 (textBeforeFirstDash m.Topic.Market) a2) := by
  unfold buildTrade
  simp [split_head]

/-- A row with fewer than five fields makes `buildTrade` fail. -/
theorem buildTrade_short (s : LoopringScraper) (pc : String → String → ExchangePair)
    (m : WebSocketResponse) (row : List String) (h : row.length < 5) :
    buildTrade s pc m row = none := by
  unfold buildTrade
  have h4 : row[4]? = none := List.getElem?_eq_none (by omega)
  simp [h4]

/-! ### C1: volume scaling and sign -/

/-- C1. For a frame that decodes successfully with a non-empty data list, whose
first row carries at index 3 a raw volume that `ParseFloat` accepts and whose
market's base symbol (the text before the first `-`) is a key of the decimal
table with exponent `d`: whenever the iteration completes, it has pushed exactly
one record, whose `Volume` is `rawVolume / 10^d` (float64 division by
`math.Pow(10, d)`), negated exactly when the side field (index 2) is `"SELL"`;
and the iteration does complete when the row has at least five fields. -/
theorem C1_volume_scaled_and_signed (w : Incoming) (s : LoopringScraper)
    (makemap : WebSocketResponse) (row : List String) (rest : List (List String))
    (vol side : String) (d : Nat)
    (hdec : jsonUnmarshal w.decode w.message = some makemap)
    (hdata : makemap.Data = row :: rest)
    (hvol : row[3]? = some vol)
    (hparse : (ParseFloat vol).2 = none)
    (hside : row[2]? = some side)
    (hkey : s.decimalsAsset.lookup (textBeforeFirstDash makemap.Topic.Market) = some d) :
    (∀ s', mainLoopStep w s = Outcome.done s' →
      ∃ t, s'.log = s.log ++ [Event.push t] ∧
        t.Volume =
          if side = "SELL" then neg (div (ParseFloat vol).1 (Pow10 d))
          else div (ParseFloat vol).1 (Pow10 d)) ∧
    (5 ≤ row.length → ∃ s', mainLoopStep w s = Outcome.done s') := by
  unfold mainLoopStep handleDecoded
  rw [hdec]
  simp only [hdata]
  match row, hvol, hside with
  | a0 :: a1 :: a2 :: a3 :: a4 :: tl, hvol, hside =>
    simp only [List.getElem?_cons_succ, List.getElem?_cons_zero, Option.some.injEq] at hvol hside
    subst hvol hside
    rw [buildTrade_five]
    simp [mkTrade, hkey]
  | [a0, a1, a2, a3], _, _ =>
    rw [buildTrade_short _ _ _ _ (by simp)]
    simp
  | [_, _, _], hvol, _ => simp at hvol
  | [_, _], hvol, _ => simp at hvol
  | [_], hvol, _ => simp at hvol
  | [], hvol, _ => simp at hvol

/-- C1 at the frame of scenario A on a freshly constructed session. -/
theorem C1_volume_scaled_and_signed_witness :
    (∀ s', mainLoopStep (incomingOf scenarioAFrame) (NewLoopringScraper "Loopring" "k" true)
        = Outcome.done s' →
      ∃ t, s'.log = (NewLoopringScraper "Loopring" "k" true).log ++ [Event.push t] ∧
        t.Volume =
          if "SELL" = "SELL" then
            neg (div (ParseFloat "2000000000000000000").1 (Pow10 18))
          else div (ParseFloat "2000000000000000000").1 (Pow10 18)) ∧
    (5 ≤ ["1610000000000", "0", "SELL", "2000000000000000000", "123.45"].length →
      ∃ s', mainLoopStep (incomingOf scenarioAFrame) (NewLoopringScraper "Loopring" "k" true)
        = Outcome.done s') :=
  C1_volume_scaled_and_signed (incomingOf scenarioAFrame) (NewLoopringScraper "Loopring" "k" true)
    scenarioAFrame ["1610000000000", "0", "SELL", "2000000000000000000", "123.45"] []
    "2000000000000000000" "SELL" 18 rfl rfl rfl (by decide!) rfl (by decide!)

/-! ### C2: scenario A -/

/-- C2, as stated, fails: with the decimal table `ETH ↦ 18` the base symbol `LRC`
of market `LRC-ETH` is not a key, the exponent defaults to `0`, and the record
pushed for the frame of scenario A has `Volume` `-2000000000000000000`, which is
not `-2`. -/
theorem C2_counterexample_eth_only_table :
    pushes (mainLoopStep (incomingOf scenarioAFrame) (sessionWithTable scenarioATable)).state.log =
      [{ Symbol := "LRC", Pair := "LRC-ETH", Price := Float64.round false 12345 100,
         Time := 1610000000, Volume := neg (ofNat 2000000000000000000), Source := "Loopring",
         VerifiedPair := false, BaseToken := ⟨"", "", ""⟩, QuoteToken := ⟨"", "", ""⟩ }] ∧
    neg (ofNat 2000000000000000000) ≠ neg (ofNat 2) := by
  decide!

/-- C2, amended. When the decimal table maps the base symbol `LRC` to `18` (as
the table built by `NewLoopringScraper` does), a decoded frame for market
`LRC-ETH` whose first data row is
`["1610000000000","0","SELL","2000000000000000000","123.45"]` makes the
iteration push exactly the record with `Symbol` `LRC`, `Pair` `LRC-ETH`, `Price`
the float64 nearest `123.45`, `Volume` `-2` and `Time` Unix second `1610000000`. -/
theorem C2_scenarioA_with_LRC_exponent (w : Incoming) (s : LoopringScraper)
    (makemap : WebSocketResponse) (rest : List (List String))
    (hdec : jsonUnmarshal w.decode w.message = some makemap)
    (hmarket : makemap.Topic.Market = "LRC-ETH")
    (hdata : makemap.Data =
      ["1610000000000", "0", "SELL", "2000000000000000000", "123.45"] :: rest)
    (hkey : s.decimalsAsset.lookup "LRC" = some 18) :
    ∃ t, mainLoopStep w s = Outcome.done { s with log := s.log ++ [Event.push t] } ∧
      t.Symbol = "LRC" ∧ t.Pair = "LRC-ETH" ∧ t.Price = Float64.round false 12345 100 ∧
      t.Volume = neg (ofNat 2) ∧ t.Time = 1610000000 := by
  have hsym : textBeforeFirstDash "LRC-ETH" = "LRC" := by decide
  have hprice : (ParseFloat "123.45").1 = Float64.round false 12345 100 := by decide!
  have hvol : neg (div (ParseFloat "2000000000000000000").1 (Pow10 18)) = neg (ofNat 2) := by
    decide!
  have htime : Int.tdiv (ParseInt "1610000000000").1 1000 = 1610000000 := by decide!
  unfold mainLoopStep handleDecoded
  rw [hdec]
  simp only [hdata]
  rw [buildTrade_five]
  simp only [mkTrade, hmarket, hsym, hkey, Option.getD_some, if_true, hprice, hvol, htime]
  exact ⟨_, rfl, rfl, rfl, rfl, rfl, rfl⟩

/-- C2, amended, on a session freshly built by `NewLoopringScraper`. -/
theorem C2_scenarioA_with_LRC_exponent_witness :
    ∃ t, mainLoopStep (incomingOf scenarioAFrame) (NewLoopringScraper "Loopring" "k" true) =
        Outcome.done { NewLoopringScraper "Loopring" "k" true with
          log := (NewLoopringScraper "Loopring" "k" true).log ++ [Event.push t] } ∧
      t.Symbol = "LRC" ∧ t.Pair = "LRC-ETH" ∧ t.Price = Float64.round false 12345 100 ∧
      t.Volume = neg (ofNat 2) ∧ t.Time = 1610000000 :=
  C2_scenarioA_with_LRC_exponent (incomingOf scenarioAFrame)
    (NewLoopringScraper "Loopring" "k" true) scenarioAFrame [] rfl rfl rfl (by decide!)

/-! ### C3 and C4: reconnect and re-subscription -/

theorem subscribeLoop_connected (keys : List String) (s : LoopringScraper) (c : Conn)
    (hconn : s.wsClient = some c) :
    subscribeLoop keys s = Outcome.done
      { s with log := s.log ++ keys.map (fun k => Event.write (resubscribeRequest k)) } := by
  induction keys generalizing s with
  | nil => simp [subscribeLoop]
  | cons k ks ih =>
    unfold subscribeLoop WriteJSON
    rw [hconn]
    simp only
    rw [ih _ rfl]
    simp [hconn, List.append_assoc]

theorem subscribeLoop_dials_pushes (keys : List String) (s : LoopringScraper) :
    dials (subscribeLoop keys s).state.log = dials s.log ∧
    pushes (subscribeLoop keys s).state.log = pushes s.log := by
  induction keys generalizing s with
  | nil => simp [subscribeLoop, Outcome.state]
  | cons k ks ih =>
    unfold subscribeLoop WriteJSON
    cases hc : s.wsClient with
    | none => simp [Outcome.state]
    | some c =>
      simp only
      rw [(ih _).1, (ih _).2]
      simp [dials_append, pushes_append, dials, pushes]

theorem writes_map_resubscribe (keys : List String) :
    writes (keys.map (fun k => Event.write (resubscribeRequest k))) =
      keys.map resubscribeRequest := by
  induction keys with
  | nil => rfl
  | cons k ks ih => simp [writes, ih]

theorem marketsNamed_resubscribe (keys : List String) :
    marketsNamed (keys.map resubscribeRequest) = keys := by
  induction keys with
  | nil => rfl
  | cons k ks ih =>
    unfold marketsNamed at ih ⊢
    simp only [List.map_cons, List.flatMap_cons, ih]
    simp [resubscribeRequest]

/-- C3. In one iteration of the receive loop: when envelope decoding fails, the
iteration is exactly one `reconnectToWS` followed by one `subscribeToALL` (one
dial is added to the log, and after a successful dial one subscribe request per
registry key is written), and no record is pushed; when decoding succeeds, no
dial and no write happens, and an empty data list leaves the whole session
state, connection and registry included, unchanged, so no record is pushed. -/
theorem C3_reconnect_cycle_iff_decode_fails (w : Incoming) (s : LoopringScraper) :
    (jsonUnmarshal w.decode w.message = none →
      mainLoopStep w s = subscribeToALL (reconnectToWS w.key w.dialOk s) ∧
      dials (mainLoopStep w s).state.log = dials s.log + 1 ∧
      pushes (mainLoopStep w s).state.log = pushes s.log ∧
      (w.dialOk = true →
        writes (mainLoopStep w s).state.log =
          writes s.log ++ s.pairScrapers.keys.map resubscribeRequest)) ∧
    (∀ makemap, jsonUnmarshal w.decode w.message = some makemap →
      dials (mainLoopStep w s).state.log = dials s.log ∧
      writes (mainLoopStep w s).state.log = writes s.log ∧
      (mainLoopStep w s).state.wsClient = s.wsClient ∧
      (mainLoopStep w s).state.pairScrapers = s.pairScrapers ∧
      (makemap.Data = [] → mainLoopStep w s = Outcome.done s)) := by
  constructor
  · intro hdec
    have hstep : mainLoopStep w s = subscribeToALL (reconnectToWS w.key w.dialOk s) := by
      unfold mainLoopStep; rw [hdec]
    refine ⟨hstep, ?_, ?_, ?_⟩
    · rw [hstep]; unfold subscribeToALL
      rw [(subscribeLoop_dials_pushes _ _).1]
      simp [reconnectToWS, dials_append, dials]
    · rw [hstep]; unfold subscribeToALL
      rw [(subscribeLoop_dials_pushes _ _).2]
      simp [reconnectToWS, pushes_append, pushes]
    · intro hok
      rw [hstep]; unfold subscribeToALL
      rw [subscribeLoop_connected _ _ ⟨_LoopringSocketurl ++ "?wsApiKey=" ++ w.key⟩
        (by simp [reconnectToWS, hok])]
      simp only [Outcome.state, reconnectToWS, writes_append, writes, List.append_nil]
      rw [writes_map_resubscribe]
  · intro makemap hdec
    unfold mainLoopStep handleDecoded
    rw [hdec]
    simp only
    cases hd : makemap.Data with
    | nil => simp [Outcome.state]
    | cons row rest =>
      simp only
      cases buildTrade s w.pairCache makemap row with
      | none => simp [Outcome.state]
      | some t => simp [Outcome.state, dials_append, writes_append, dials, writes]

/-- C3 at a keepalive frame that fails decoding and at a decoded frame with an
empty data list, both on the session of scenario C. -/
theorem C3_reconnect_cycle_iff_decode_fails_witness :
    (mainLoopStep incomingUndecodable scenarioCSession =
        subscribeToALL (reconnectToWS "k2" true scenarioCSession) ∧
      dials (mainLoopStep incomingUndecodable scenarioCSession).state.log =
        dials scenarioCSession.log + 1 ∧
      pushes (mainLoopStep incomingUndecodable scenarioCSession).state.log =
        pushes scenarioCSession.log ∧
      (incomingUndecodable.dialOk = true →
        writes (mainLoopStep incomingUndecodable scenarioCSession).state.log =
          writes scenarioCSession.log ++ scenarioCSession.pairScrapers.keys.map resubscribeRequest)) ∧
    mainLoopStep (incomingOf emptyDataFrame) scenarioCSession = Outcome.done scenarioCSession :=
  ⟨(C3_reconnect_cycle_iff_decode_fails incomingUndecodable scenarioCSession).1 rfl,
   ((C3_reconnect_cycle_iff_decode_fails (incomingOf emptyDataFrame) scenarioCSession).2
      emptyDataFrame rfl).2.2.2.2 rfl⟩

/-- C4, as stated, fails when the re-dial of the reconnect fails: `reconnectToWS`
then stores the nil connection, and `subscribeToALL` panics at its first
`WriteJSON`. On the session of scenario C (registry `A-B`, `C-D`) a frame that
fails decoding, followed by a failed dial, ends the iteration in a panic with
no subscribe request written for either pair. -/
theorem C4_counterexample_failed_redial :
    (reconnectToWS "k2" false scenarioCSession).wsClient = none ∧
    (reconnectToWS "k2" false scenarioCSession).pairScrapers.keys.Perm ["A-B", "C-D"] ∧
    subscribeToALL (reconnectToWS "k2" false scenarioCSession) =
      Outcome.panicked (reconnectToWS "k2" false scenarioCSession) ∧
    mainLoopStep { incomingUndecodable with dialOk := false } scenarioCSession =
      Outcome.panicked (reconnectToWS "k2" false scenarioCSession) ∧
    writes (mainLoopStep { incomingUndecodable with dialOk := false } scenarioCSession).state.log =
      writes scenarioCSession.log := by
  decide

/-- C4, amended. On a session that holds a connection (the re-dial succeeded),
`subscribeToALL` completes and writes exactly one subscribe request per registry
key: the markets named by the requests written are a permutation of the
registry's keys without duplicates, there are as many requests as keys, and the
registry and the connection are unchanged, so that a second re-subscription
again completes and writes one request per registry key. -/
theorem C4_resubscribe_one_request_per_pair (s : LoopringScraper) (c : Conn)
    (hconn : s.wsClient = some c) :
    ∃ s' sent, subscribeToALL s = Outcome.done s' ∧
      s'.log = s.log ++ sent.map Event.write ∧
      (marketsNamed sent).Perm s.pairScrapers.keys ∧
      (marketsNamed sent).Nodup ∧
      sent.length = s.pairScrapers.keys.length ∧
      s'.pairScrapers = s.pairScrapers ∧
      s'.wsClient = s.wsClient ∧
      ∃ s'' again, subscribeToALL s' = Outcome.done s'' ∧
        s''.log = s'.log ++ again.map Event.write ∧
        (marketsNamed again).Perm s.pairScrapers.keys ∧
        (marketsNamed again).Nodup ∧
        again.length = s.pairScrapers.keys.length ∧
        s''.pairScrapers = s.pairScrapers := by
  refine ⟨_, s.pairScrapers.keys.map resubscribeRequest,
    subscribeLoop_connected _ s c hconn, ?_, ?_, ?_, ?_, rfl, rfl,
    _, s.pairScrapers.keys.map resubscribeRequest,
    subscribeLoop_connected s.pairScrapers.keys
      { s with log := s.log ++ s.pairScrapers.keys.map (fun k => Event.write (resubscribeRequest k)) }
      c hconn, ?_, ?_, ?_, ?_, rfl⟩
  · simp [List.map_map, Function.comp_def]
  · rw [marketsNamed_resubscribe]
  · rw [marketsNamed_resubscribe]; exact s.pairScrapers.nodup
  · simp
  · simp [List.map_map, Function.comp_def]
  · rw [marketsNamed_resubscribe]
  · rw [marketsNamed_resubscribe]; exact s.pairScrapers.nodup
  · simp

/-- C4, amended, on the session of scenario C (registry `A-B`, `C-D`, connected),
together with the scenario itself: each of two successive reconnect cycles with
a successful dial writes exactly two subscribe requests, one for `A-B` and one
for `C-D`. -/
theorem C4_resubscribe_one_request_per_pair_witness :
    (∃ s' sent, subscribeToALL scenarioCSession = Outcome.done s' ∧
      s'.log = scenarioCSession.log ++ sent.map Event.write ∧
      (marketsNamed sent).Perm scenarioCSession.pairScrapers.keys ∧
      (marketsNamed sent).Nodup ∧
      sent.length = scenarioCSession.pairScrapers.keys.length ∧
      s'.pairScrapers = scenarioCSession.pairScrapers ∧
      s'.wsClient = scenarioCSession.wsClient ∧
      ∃ s'' again, subscribeToALL s' = Outcome.done s'' ∧
        s''.log = s'.log ++ again.map Event.write ∧
        (marketsNamed again).Perm scenarioCSession.pairScrapers.keys ∧
        (marketsNamed again).Nodup ∧
        again.length = scenarioCSession.pairScrapers.keys.length ∧
        s''.pairScrapers = scenarioCSession.pairScrapers) ∧
    scenarioCSession.pairScrapers.keys.Perm ["A-B", "C-D"] ∧
    ((writes (mainLoopStep incomingUndecodable scenarioCSession).state.log).drop
        (writes scenarioCSession.log).length).Perm
      [resubscribeRequest "A-B", resubscribeRequest "C-D"] ∧
    ((writes (mainLoopStep incomingUndecodable
          (mainLoopStep incomingUndecodable scenarioCSession).state).state.log).drop
        (writes (mainLoopStep incomingUndecodable scenarioCSession).state.log).length).Perm
      [resubscribeRequest "A-B", resubscribeRequest "C-D"] :=
  ⟨C4_resubscribe_one_request_per_pair scenarioCSession
      ⟨"wss://ws.api3.loopring.io/v3/ws?wsApiKey=k"⟩ (by decide),
    by decide, by decide, by decide⟩

/-! ### C5: repeated `Close` -/

/-- C5 fails on the code: `Close` tests `s.closed` but nothing ever sets it (the
only assignment is in the commented-out `cleanup`). On every connected session
with `closed = false`, after a first `Close` (whatever the transport answered)
the flag is still `false` and a second `Close` calls the transport's `Close`
again; what it returns, if it returns, is the transport's error or the sticky
error, never the "already closed" error of the guard; and when the transport
returns nil both times the second call executes `close(s.shutdown)` on the
closed channel and panics. -/
theorem C5_second_close_reaches_transport (s : LoopringScraper) (c : Conn)
    (r1 r2 : Option String) (hclosed : s.closed = false) (hconn : s.wsClient = some c) :
    (Close r1 s).state.closed = false ∧
    transportCloses (Close r1 s).state.log = transportCloses s.log + 1 ∧
    transportCloses (Close r2 (Close r1 s).state).state.log = transportCloses s.log + 2 ∧
    (∀ e s', Close r2 (Close r1 s).state = CloseResult.returned e s' → e = r2 ∨ e = s.error) ∧
    (r1 = none → r2 = none → ∃ s', Close r2 (Close r1 s).state = CloseResult.panicked s') := by
  cases r1 <;> cases r2 <;> cases hsc : s.shutdownClosed <;> cases hsd : s.shutdownDoneClosed <;>
    simp [Close, CloseResult.state, hclosed, hconn, hsc, hsd, transportCloses_append,
      transportCloses]

/-- C5's failure on a fresh connected session: the first `Close` (transport
closes cleanly) waits forever on `shutdownDone`; a second `Close` whose
transport call fails returns the transport's error, not "already closed", and
has called the transport twice; and a second `Close` whose transport call
returns nil panics. -/
theorem C5_second_close_reaches_transport_witness :
    ((Close none freshSession).state.closed = false ∧
      transportCloses (Close none freshSession).state.log = transportCloses freshSession.log + 1 ∧
      transportCloses (Close (some "use of closed network connection")
        (Close none freshSession).state).state.log = transportCloses freshSession.log + 2 ∧
      (∀ e s', Close (some "use of closed network connection") (Close none freshSession).state =
          CloseResult.returned e s' →
        e = some "use of closed network connection" ∨ e = freshSession.error) ∧
      ((none : Option String) = none → (some "use of closed network connection") = none →
        ∃ s', Close (some "use of closed network connection") (Close none freshSession).state =
          CloseResult.panicked s')) ∧
    (∃ s', Close none freshSession = CloseResult.blocked s') ∧
    (∃ s', Close (some "use of closed network connection") (Close none freshSession).state =
      CloseResult.returned (some "use of closed network connection") s') ∧
    (∃ s', Close none (Close none freshSession).state = CloseResult.panicked s') :=
  ⟨C5_second_close_reaches_transport freshSession
      ⟨"wss://ws.api3.loopring.io/v3/ws?wsApiKey=k"⟩ none
      (some "use of closed network connection") (by decide) (by decide),
    ⟨_, rfl⟩, ⟨_, rfl⟩, ⟨_, rfl⟩⟩

/-! ### C6: `ScrapePair` on a closed or failed session -/

theorem lookup_insert {V : Type} (m : GoMap V) (k : String) (v : V) :
    (m.insert k v).lookup k = some v := by
  simp [GoMap.insert, GoMap.lookup]

/-- C6, as stated, fails on a session whose dial failed: `NewLoopringScraper`
logs the dial error and stores the nil connection, leaving no sticky error and
the closed flag unset, and `ScrapePair` then records the pair in the registry
and panics at `WriteJSON`, returning neither a handle nor an error. -/
theorem C6_counterexample_failed_dial :
    (NewLoopringScraper "Loopring" "k" false).error = none ∧
    (NewLoopringScraper "Loopring" "k" false).closed = false ∧
    (NewLoopringScraper "Loopring" "k" false).wsClient = none ∧
    ScrapePair (pairNamed "LRC-ETH") (NewLoopringScraper "Loopring" "k" false) =
      ScrapeResult.panicked
        { NewLoopringScraper "Loopring" "k" false with
          pairScrapers := GoMap.empty.insert "LRC-ETH" ⟨pairNamed "LRC-ETH", false⟩ } ∧
    writes (ScrapePair (pairNamed "LRC-ETH")
      (NewLoopringScraper "Loopring" "k" false)).state.log = [] := by
  decide

/-- C6, amended. `ScrapePair` returns an error exactly when the sticky error or the
closed flag is set: with a sticky error it returns that error, with only the
closed flag the "Call ScrapePair on closed scraper" error, in both cases with no
handle and an unchanged session (registry unchanged, nothing written); otherwise,
on a session that holds a connection, it returns a handle whose `Pair()` is the
given pair, the registry maps the pair's `ForeignName` to that handle, and one
subscribe request has been written. -/
theorem C6_ScrapePair_fails_iff_error_or_closed (pair : ExchangePair) (s : LoopringScraper) :
    ((∃ e s', ScrapePair pair s = ScrapeResult.failed e s') ↔
      (s.error ≠ none ∨ s.closed = true)) ∧
    (∀ e, s.error = some e → ScrapePair pair s = ScrapeResult.failed e s) ∧
    (s.error = none → s.closed = true →
      ScrapePair pair s =
        ScrapeResult.failed "LoopringScraper: Call ScrapePair on closed scraper" s) ∧
    (∀ c, s.error = none → s.closed = false → s.wsClient = some c →
      ∃ ps s', ScrapePair pair s = ScrapeResult.ok ps s' ∧ ps.Pair = pair ∧
        s'.pairScrapers.lookup pair.ForeignName = some ps ∧
        s'.log = s.log ++ [Event.write (subscribeRequest pair.ForeignName)]) := by
  refine ⟨?_, ?_, ?_, ?_⟩
  · cases he : s.error with
    | some e => simp [ScrapePair, he]
    | none =>
      cases hc : s.closed with
      | true => simp [ScrapePair, he, hc]
      | false =>
        cases hw : s.wsClient <;> simp [ScrapePair, he, hc, WriteJSON, hw]
  · intro e he; simp [ScrapePair, he]
  · intro he hc; simp [ScrapePair, he, hc]
  · intro c he hc hw
    refine ⟨⟨pair, false⟩,
      { s with
        pairScrapers := s.pairScrapers.insert pair.ForeignName ⟨pair, false⟩
        log := s.log ++ [Event.write (subscribeRequest pair.ForeignName)] }, ?_, rfl, ?_, rfl⟩
    · simp [ScrapePair, he, hc, WriteJSON, hw]
    · exact lookup_insert _ _ _

/-- C6, amended, on a session with a sticky error, on a closed session and on a
fresh connected session. -/
theorem C6_ScrapePair_fails_iff_error_or_closed_witness :
    ScrapePair (pairNamed "LRC-ETH") { freshSession with error := some "boom" } =
      ScrapeResult.failed "boom" { freshSession with error := some "boom" } ∧
    ScrapePair (pairNamed "LRC-ETH") { freshSession with closed := true } =
      ScrapeResult.failed "LoopringScraper: Call ScrapePair on closed scraper"
        { freshSession with closed := true } ∧
    (∃ ps s', ScrapePair (pairNamed "LRC-ETH") freshSession = ScrapeResult.ok ps s' ∧
      ps.Pair = pairNamed "LRC-ETH" ∧
      s'.pairScrapers.lookup (pairNamed "LRC-ETH").ForeignName = some ps ∧
      s'.log = freshSession.log ++
        [Event.write (subscribeRequest (pairNamed "LRC-ETH").ForeignName)]) :=
  ⟨(C6_ScrapePair_fails_iff_error_or_closed (pairNamed "LRC-ETH")
      { freshSession with error := some "boom" }).2.1 "boom" rfl,
   (C6_ScrapePair_fails_iff_error_or_closed (pairNamed "LRC-ETH")
      { freshSession with closed := true }).2.2.1 rfl rfl,
   (C6_ScrapePair_fails_iff_error_or_closed (pairNamed "LRC-ETH") freshSession).2.2.2
      ⟨"wss://ws.api3.loopring.io/v3/ws?wsApiKey=k"⟩ rfl rfl rfl⟩

/-! ### C7: the replayed subscribe request -/

/-- C7 fails on the code: for every market the request `subscribeToALL` writes
differs from the one `ScrapePair` wrote. Both have op `sub`, sequence `1000` and
one topic entry with the same market, count `20` and snapshot `true`, but
`ScrapePair` names the topic `ticker` and `subscribeToALL` names it `trade`. On
a fresh connected session, subscribing to `LRC-ETH` and then going through one
reconnect cycle writes these two different requests. -/
theorem C7_resubscribe_changes_topic (market : String) :
    resubscribeRequest market ≠ subscribeRequest market ∧
    (resubscribeRequest market).Op = "sub" ∧ (subscribeRequest market).Op = "sub" ∧
    (resubscribeRequest market).Sequence = 1000 ∧ (subscribeRequest market).Sequence = 1000 ∧
    (resubscribeRequest market).Topics = [⟨"trade", market, 20, true⟩] ∧
    (subscribeRequest market).Topics = [⟨"ticker", market, 20, true⟩] ∧
    writes (mainLoopStep incomingUndecodable
        (ScrapePair (pairNamed "LRC-ETH") freshSession).state).state.log =
      [subscribeRequest "LRC-ETH", resubscribeRequest "LRC-ETH"] := by
  refine ⟨?_, rfl, rfl, rfl, rfl, rfl, rfl, by decide⟩
  simp [resubscribeRequest, subscribeRequest]

/-! ### C8: fields that fail to parse -/

theorem floatOfRead_cases (r : ReadFloat) :
    (floatOfRead r).2 = none ∨
      ((floatOfRead r).2 = some NumError.ErrRange ∧ ∃ b, (floatOfRead r).1 = inf b) := by
  unfold floatOfRead
  simp only
  split
  · right; exact ⟨rfl, _, by assumption⟩
  · left; rfl

theorem ParseFloat_cases (s : String) :
    (ParseFloat s).2 = none ∨
      ((ParseFloat s).2 = some NumError.ErrSyntax ∧ (ParseFloat s).1 = Float64.zero) ∨
      ((ParseFloat s).2 = some NumError.ErrRange ∧ ∃ b, (ParseFloat s).1 = inf b) := by
  unfold ParseFloat
  split
  · split
    · left; rfl
    · right; left; exact ⟨rfl, rfl⟩
  · split
    · right; left; exact ⟨rfl, rfl⟩
    · split
      · rcases floatOfRead_cases ‹ReadFloat› with h | h
        · left; exact h
        · right; right; exact h
      · right; left; exact ⟨rfl, rfl⟩

theorem ParseInt_cases (s : String) :
    (ParseInt s).2 = none ∨
      ((ParseInt s).2 = some NumError.ErrSyntax ∧ (ParseInt s).1 = 0) ∨
      ((ParseInt s).2 = some NumError.ErrRange ∧
        ((ParseInt s).1 = 2 ^ 63 - 1 ∨ (ParseInt s).1 = -(2 ^ 63))) := by
  have hfin : ∀ (b : Bool) (r : Nat × Option NumError),
      (parseIntFinish b r).2 = none ∨
      ((parseIntFinish b r).2 = some NumError.ErrSyntax ∧ (parseIntFinish b r).1 = 0) ∨
      ((parseIntFinish b r).2 = some NumError.ErrRange ∧
        ((parseIntFinish b r).1 = 2 ^ 63 - 1 ∨ (parseIntFinish b r).1 = -(2 ^ 63))) := by
    intro b r
    unfold parseIntFinish
    split_ifs <;> simp
  unfold ParseInt
  split
  · right; left; exact ⟨rfl, rfl⟩
  · exact hfin _ _
  · exact hfin _ _
  · exact hfin _ _

theorem Pow10_positive_finite : ∀ d : Nat, d ≤ 18 → (Pow10 d).isPositiveFinite = true := by
  decide!

/-- Every exponent read from the table of `NewLoopringScraper`, for a known or an
unknown symbol, is at most `18`. -/
theorem decimalAsset_exponent_le (sym : String) : (decimalAsset.lookup sym).getD 0 ≤ 18 := by
  have hall : ∀ e ∈ decimalAsset.entries, e.2 ≤ 18 := by decide
  unfold GoMap.lookup
  cases hf : decimalAsset.entries.find? (fun e => e.1 == sym) with
  | none => simp
  | some e => simpa using hall e (List.mem_of_find?_eq_some hf)

theorem div_zero_positive (p : Float64) (hp : p.isPositiveFinite = true) :
    div Float64.zero p = Float64.zero := by
  match p, hp with
  | fin false m e, hp =>
    have hm : m ≠ 0 := by simpa [Float64.isPositiveFinite] using hp
    have h0 : ∀ x : Int, (frac 0 x).1 = 0 := by
      intro x; unfold frac scale; split <;> simp
    simp [div, Float64.zero, hm, h0, Float64.round]

theorem div_inf_positive (b : Bool) (p : Float64) (hp : p.isPositiveFinite = true) :
    div (inf b) p = inf b := by
  match p, hp with
  | fin false m e, _ => simp [div]

/-- C8, as stated, fails for numbers that are out of range: on a fresh session
the frame with first row `["9223372036854775808","0","BUY","1e999","-1e999"]`
has three fields that fail to parse with a range error, and the record pushed
has `Time` Unix second `9223372036854775`, `Volume` `+Inf` and `Price` `-Inf`,
none of them zero. -/
theorem C8_counterexample_out_of_range :
    (ParseInt "9223372036854775808").2 = some NumError.ErrRange ∧
    (ParseFloat "1e999").2 = some NumError.ErrRange ∧
    (ParseFloat "-1e999").2 = some NumError.ErrRange ∧
    pushes (mainLoopStep (incomingOf outOfRangeFrame) freshSession).state.log =
      [{ Symbol := "LRC", Pair := "LRC-ETH", Price := inf true, Time := 9223372036854775,
         Volume := inf false, Source := "Loopring", VerifiedPair := false,
         BaseToken := ⟨"", "", ""⟩, QuoteToken := ⟨"", "", ""⟩ }] := by
  decide!

/-- C8, amended. For a decoded frame with a non-empty data list whose first row
has at least five fields, and a decimal exponent of the base symbol of at most
`18` (the largest the table of `NewLoopringScraper` holds), the iteration pushes exactly one record, in which a field that fails to
parse with a syntax error is zero (`Price` `0`; `Volume` zero, negative zero for
a `SELL`; `Time` Unix second `0`), while a field that fails with a range error
carries the bound the parser returns: `Price` and `Volume` are an infinity, and
`Time` is Unix second `9223372036854775` or `-9223372036854775`. -/
theorem C8_parse_failures_degrade (w : Incoming) (s : LoopringScraper)
    (makemap : WebSocketResponse) (a0 a1 a2 a3 a4 : String) (tl : List String)
    (rest : List (List String))
    (hdec : jsonUnmarshal w.decode w.message = some makemap)
    (hdata : makemap.Data = (a0 :: a1 :: a2 :: a3 :: a4 :: tl) :: rest)
    (hexp : (s.decimalsAsset.lookup (textBeforeFirstDash makemap.Topic.Market)).getD 0 ≤ 18) :
    ∃ t, mainLoopStep w s = Outcome.done { s with log := s.log ++ [Event.push t] } ∧
      ((ParseFloat a4).2 = some NumError.ErrSyntax → t.Price = Float64.zero) ∧
      ((ParseFloat a4).2 = some NumError.ErrRange → ∃ b, t.Price = inf b) ∧
      ((ParseFloat a3).2 = some NumError.ErrSyntax →
        t.Volume = if a2 = "SELL" then neg Float64.zero else Float64.zero) ∧
      ((ParseFloat a3).2 = some NumError.ErrRange → ∃ b, t.Volume = inf b) ∧
      ((ParseInt a0).2 = some NumError.ErrSyntax → t.Time = 0) ∧
      ((ParseInt a0).2 = some NumError.ErrRange →
        t.Time = 9223372036854775 ∨ t.Time = -9223372036854775) := by
  have hpos := Pow10_positive_finite _ hexp
  refine ⟨mkTrade s w.pairCache makemap a4 a0 a3 (textBeforeFirstDash makemap.Topic.Market) a2,
    ?_, ?_, ?_, ?_, ?_, ?_, ?_⟩ <;> simp only [mkTrade]
  · unfold mainLoopStep handleDecoded
    rw [hdec]
    simp only [hdata]
    rw [buildTrade_five]
    rfl
  · intro h
    rcases ParseFloat_cases a4 with h' | h' | h'
    · rw [h'] at h; cases h
    · exact h'.2
    · rw [h'.1] at h; cases h
  · intro h
    rcases ParseFloat_cases a4 with h' | h' | h'
    · rw [h'] at h; cases h
    · rw [h'.1] at h; cases h
    · exact h'.2
  · intro h
    rcases ParseFloat_cases a3 with h' | h' | h'
    · rw [h'] at h; cases h
    · simp only [h'.2, div_zero_positive _ hpos]
    · rw [h'.1] at h; cases h
  · intro h
    rcases ParseFloat_cases a3 with h' | h' | h'
    · rw [h'] at h; cases h
    · rw [h'.1] at h; cases h
    · obtain ⟨b, hb⟩ := h'.2
      simp only [hb, div_inf_positive _ _ hpos]
      by_cases hs : a2 = "SELL"
      · exact ⟨!b, by simp [hs, neg]⟩
      · exact ⟨b, by simp [hs]⟩
  · intro h
    rcases ParseInt_cases a0 with h' | h' | h'
    · rw [h'] at h; cases h
    · simp only [h'.2]; rfl
    · rw [h'.1] at h; cases h
  · intro h
    rcases ParseInt_cases a0 with h' | h' | h'
    · rw [h'] at h; cases h
    · rw [h'.1] at h; cases h
    · rcases h'.2 with h2 | h2
      · left; simp only [h2]; decide
      · right; simp only [h2]; decide

/-- C8, amended, on a fresh session and a frame whose timestamp, raw volume and
price are not numbers: the record pushed has `Price` `0`, `Volume` negative zero
(the side is `SELL`) and `Time` Unix second `0`. -/
theorem C8_parse_failures_degrade_witness :
    ∃ t, mainLoopStep (incomingOf malformedFrame) freshSession =
        Outcome.done { freshSession with log := freshSession.log ++ [Event.push t] } ∧
      t.Price = Float64.zero ∧ t.Volume = neg Float64.zero ∧ t.Time = 0 := by
  obtain ⟨t, hstep, hp, _, hv, _, ht, _⟩ :=
    C8_parse_failures_degrade (incomingOf malformedFrame) freshSession malformedFrame
      "soon" "0" "SELL" "much" "12,5" [] [] rfl rfl (decimalAsset_exponent_le _)
  exact ⟨t, hstep, hp (by decide!), hv (by decide!), ht (by decide!)⟩

/-! ### C9: rows shorter than five fields -/

/-- C9 fails on the code: for a decoded frame with a non-empty data list, the
iteration panics with an index out of range at `Data[0][4]` whenever the first
row has fewer than five fields, leaving the session as it was and pushing no
record; with at least five fields, whatever the market string (`asset[0]`
always exists), it pushes exactly one record. -/
theorem C9_short_row_panics (w : Incoming) (s : LoopringScraper)
    (makemap : WebSocketResponse) (row : List String) (rest : List (List String))
    (hdec : jsonUnmarshal w.decode w.message = some makemap)
    (hdata : makemap.Data = row :: rest) :
    (row.length < 5 → mainLoopStep w s = Outcome.panicked s) ∧
    (5 ≤ row.length →
      ∃ t, mainLoopStep w s = Outcome.done { s with log := s.log ++ [Event.push t] }) := by
  unfold mainLoopStep handleDecoded
  rw [hdec]
  simp only [hdata]
  constructor
  · intro h
    rw [buildTrade_short _ _ _ _ h]
  · intro h
    match row, h with
    | a0 :: a1 :: a2 :: a3 :: a4 :: tl, _ =>
      rw [buildTrade_five]
      exact ⟨_, rfl⟩

/-- C9's failure on a fresh session: the decoded frame whose first row is
`["1610000000000"]` ends the iteration in a panic, with nothing pushed. -/
theorem C9_short_row_panics_witness :
    mainLoopStep (incomingOf shortRowFrame) freshSession = Outcome.panicked freshSession ∧
    pushes (mainLoopStep (incomingOf shortRowFrame) freshSession).state.log = [] :=
  ⟨(C9_short_row_panics (incomingOf shortRowFrame) freshSession shortRowFrame
      ["1610000000000"] [] rfl rfl).1 (by decide), by decide⟩

/-! ### C10: a failed read -/

/-- C10, as stated, fails: on the session of scenario C, an iteration whose read
returned an error and no bytes dials once more and re-subscribes both pairs. -/
theorem C10_counterexample_read_error_reconnects :
    incomingReadError.readErr = true ∧ incomingReadError.message = [] ∧
    dials (mainLoopStep incomingReadError scenarioCSession).state.log =
      dials scenarioCSession.log + 1 ∧
    writes (mainLoopStep incomingReadError scenarioCSession).state.log =
      writes scenarioCSession.log ++ [resubscribeRequest "C-D", resubscribeRequest "A-B"] := by
  decide

/-- C10, amended. An iteration whose read returned no message bytes (as a
failed read does) fails envelope decoding whatever the decoder, so it performs
exactly one reconnect-and-resubscribe cycle: it equals `reconnectToWS` followed
by `subscribeToALL`, adds one dial to the log and pushes no record; when the
re-dial succeeds it writes one subscribe request per registry key and the loop
goes on to its next read. The read error itself is only logged. -/
theorem C10_read_error_reconnects (w : Incoming) (s : LoopringScraper)
    (hempty : w.message = []) :
    mainLoopStep w s = subscribeToALL (reconnectToWS w.key w.dialOk s) ∧
    dials (mainLoopStep w s).state.log = dials s.log + 1 ∧
    pushes (mainLoopStep w s).state.log = pushes s.log ∧
    (w.dialOk = true →
      mainLoopStep w s = Outcome.done
        { reconnectToWS w.key true s with
          log := s.log ++ Event.dial (_LoopringSocketurl ++ "?wsApiKey=" ++ w.key) true ::
            s.pairScrapers.keys.map (fun k => Event.write (resubscribeRequest k)) }) := by
  have hdec : jsonUnmarshal w.decode w.message = none := by
    rw [hempty]; rfl
  have hstep : mainLoopStep w s = subscribeToALL (reconnectToWS w.key w.dialOk s) := by
    unfold mainLoopStep; rw [hdec]
  refine ⟨hstep, ?_, ?_, ?_⟩
  · rw [hstep]; unfold subscribeToALL
    rw [(subscribeLoop_dials_pushes _ _).1]
    simp [reconnectToWS, dials_append, dials]
  · rw [hstep]; unfold subscribeToALL
    rw [(subscribeLoop_dials_pushes _ _).2]
    simp [reconnectToWS, pushes_append, pushes]
  · intro hok
    rw [hstep, hok]; unfold subscribeToALL
    rw [subscribeLoop_connected _ _ ⟨_LoopringSocketurl ++ "?wsApiKey=" ++ w.key⟩
      (by simp [reconnectToWS])]
    simp [reconnectToWS, GoMap.keys]

/-- C10, amended, on the session of scenario C with a failed read. -/
theorem C10_read_error_reconnects_witness :
    incomingReadError.message = [] ∧
    mainLoopStep incomingReadError scenarioCSession =
      subscribeToALL (reconnectToWS "k2" true scenarioCSession) ∧
    dials (mainLoopStep incomingReadError scenarioCSession).state.log =
      dials scenarioCSession.log + 1 ∧
    pushes (mainLoopStep incomingReadError scenarioCSession).state.log =
      pushes scenarioCSession.log :=
  ⟨rfl, (C10_read_error_reconnects incomingReadError scenarioCSession rfl).1,
    (C10_read_error_reconnects incomingReadError scenarioCSession rfl).2.1,
    (C10_read_error_reconnects incomingReadError scenarioCSession rfl).2.2.1⟩

end Loopring

/-! ## Properties of the index weighting -/

namespace IndexCalculation

/-! ### Auxiliary facts -/

theorem foldl_add_eq_sum {α : Type} (f : α → ℚ) (l : List α) (a : ℚ) :
    l.foldl (fun acc c => acc + f c) a = a + (l.map f).sum := by
  induction l generalizing a with
  | nil => simp
  | cons x xs ih => simp [ih, add_assoc]

theorem sortedMarketCaps_perm (cs : List CryptoIndexConstituent) :
    (sortedMarketCaps cs).Perm (cs.map newMarketCap) :=
  List.perm_insertionSort _ _

theorem sortedMarketCaps_sorted (cs : List CryptoIndexConstituent) :
    (sortedMarketCaps cs).Pairwise (fun a b => b.RawMarketCap ≤ a.RawMarketCap) := by
  haveI : IsTotal MarketCap (fun a b => b.RawMarketCap ≤ a.RawMarketCap) :=
    ⟨fun a b => le_total _ _⟩
  haveI : IsTrans MarketCap (fun a b => b.RawMarketCap ≤ a.RawMarketCap) :=
    ⟨fun _ _ _ hab hbc => le_trans hbc hab⟩
  exact List.sorted_insertionSort _ _

theorem fullMarketCap_eq (cs : List CryptoIndexConstituent) :
    fullMarketCap cs = ((sortedMarketCaps cs).map (fun mc => mc.RawMarketCap)).sum := by
  unfold fullMarketCap
  rw [foldl_add_eq_sum, zero_add, ((sortedMarketCaps_perm cs).map _).sum_eq, List.map_map]
  rfl

/-- What the loop of step 2 computes when `sumMarketCap` is the sum of the raw
market caps of the entries still to examine: it stops after `j` entries, each of
which met the offender test, and the entry it stops at (if any) fails the test. -/
theorem offenderLoop_spec (l : List MarketCap) (k : Nat) :
    ∃ j, j ≤ l.length ∧
      offenderLoop l k (l.map (fun mc => mc.RawMarketCap)).sum =
        (k + j, ((l.drop j).map (fun mc => mc.RawMarketCap)).sum) ∧
      (∀ x rest, l.drop j = x :: rest →
        x.RawMarketCap * (1 - MAX_RELATIVE_CAP) ^ (k + j) ≤
          MAX_RELATIVE_CAP * ((l.drop j).map (fun mc => mc.RawMarketCap)).sum) ∧
      (∀ i, i < j → ∀ x rest, l.drop i = x :: rest →
        MAX_RELATIVE_CAP * ((l.drop i).map (fun mc => mc.RawMarketCap)).sum <
          x.RawMarketCap * (1 - MAX_RELATIVE_CAP) ^ (k + i)) := by
  induction l generalizing k with
  | nil => exact ⟨0, le_refl _, rfl, by simp, by simp⟩
  | cons x xs ih =>
    by_cases hc : x.RawMarketCap * (1 - MAX_RELATIVE_CAP) ^ k >
        MAX_RELATIVE_CAP * ((x :: xs).map (fun mc => mc.RawMarketCap)).sum
    · obtain ⟨j, hj, hloop, hstop, hoff⟩ := ih (k + 1)
      refine ⟨j + 1, by simpa using hj, ?_, ?_, ?_⟩
      · unfold offenderLoop
        rw [if_pos hc]
        have hsum : ((x :: xs).map (fun mc => mc.RawMarketCap)).sum - x.RawMarketCap =
            (xs.map (fun mc => mc.RawMarketCap)).sum := by simp
        rw [hsum, hloop]
        simp [Nat.add_assoc, Nat.add_comm 1 j]
      · intro y rest hy
        have := hstop y rest (by simpa using hy)
        simpa [Nat.add_assoc, Nat.add_comm 1 j] using this
      · intro i hi y rest hy
        cases i with
        | zero =>
          simp only [List.drop_zero, List.cons.injEq] at hy
          obtain ⟨rfl, rfl⟩ := hy
          simpa using hc
        | succ i =>
          have := hoff i (by omega) y rest (by simpa using hy)
          simpa [Nat.add_assoc, Nat.add_comm 1 i] using this
    · refine ⟨0, Nat.zero_le _, ?_, ?_, by simp⟩
      · unfold offenderLoop
        rw [if_neg hc]
        simp
      · intro y rest hy
        simp only [List.drop_zero, List.cons.injEq] at hy
        obtain ⟨rfl, rfl⟩ := hy
        simpa using not_lt.1 hc

/-- Every entry of the sorted slice has a positive raw market cap when prices
and supplies are positive. -/
theorem sortedMarketCaps_pos (cs : List CryptoIndexConstituent)
    (hpos : ∀ c ∈ cs, 0 < c.Price ∧ 0 < c.CirculatingSupply) :
    ∀ mc ∈ sortedMarketCaps cs, 0 < mc.RawMarketCap := by
  intro mc hmc
  have hmem := (sortedMarketCaps_perm cs).mem_iff.1 hmc
  obtain ⟨c, hc, rfl⟩ := List.mem_map.1 hmem
  exact mul_pos (hpos c hc).2 (hpos c hc).1

theorem raw_le_sum (l : List MarketCap) (hpos : ∀ mc ∈ l, 0 < mc.RawMarketCap)
    (m : MarketCap) (hm : m ∈ l) :
    m.RawMarketCap ≤ (l.map (fun mc => mc.RawMarketCap)).sum := by
  apply List.single_le_sum
  · intro x hx
    obtain ⟨mc, hmc, rfl⟩ := List.mem_map.1 hx
    exact le_of_lt (hpos mc hmc)
  · exact List.mem_map.2 ⟨m, hm, rfl⟩

/-- The outcome of step 2 for positive prices and supplies: at most four
offenders, `sumMarketCap` is the sum over the entries that are left, and the
first of these fails the offender test. -/
theorem step2_facts (cs : List CryptoIndexConstituent)
    (hpos : ∀ c ∈ cs, 0 < c.Price ∧ 0 < c.CirculatingSupply) :
    numOffendors cs ≤ (sortedMarketCaps cs).length ∧
    numOffendors cs ≤ 4 ∧
    restMarketCap cs =
      (((sortedMarketCaps cs).drop (numOffendors cs)).map (fun mc => mc.RawMarketCap)).sum ∧
    (∀ x rest, (sortedMarketCaps cs).drop (numOffendors cs) = x :: rest →
      x.RawMarketCap * (1 - MAX_RELATIVE_CAP) ^ numOffendors cs ≤
        MAX_RELATIVE_CAP * restMarketCap cs) := by
  obtain ⟨j, hj, hloop, hstop, hoff⟩ := offenderLoop_spec (sortedMarketCaps cs) 0
  rw [← fullMarketCap_eq] at hloop
  have hk : numOffendors cs = j := by
    unfold numOffendors; rw [hloop]; simp
  have hr : restMarketCap cs =
      (((sortedMarketCaps cs).drop j).map (fun mc => mc.RawMarketCap)).sum := by
    unfold restMarketCap; rw [hloop]
  have hLpos := sortedMarketCaps_pos cs hpos
  refine ⟨hk ▸ hj, ?_, hk ▸ hr, ?_⟩
  · rw [hk]
    by_contra hgt
    have h4 : 4 < j := by omega
    have hlen : 4 < (sortedMarketCaps cs).length := by omega
    have hdrop := List.drop_eq_getElem_cons hlen
    have hcond := hoff 4 h4 _ _ hdrop
    have hxpos : 0 < ((sortedMarketCaps cs)[4]).RawMarketCap :=
      hLpos _ (List.getElem_mem _)
    have hdpos : ∀ mc ∈ (sortedMarketCaps cs).drop 4, 0 < mc.RawMarketCap :=
      fun mc hmc => hLpos mc (List.mem_of_mem_drop hmc)
    have hle := raw_le_sum _ hdpos ((sortedMarketCaps cs)[4])
      (by rw [hdrop]; exact List.mem_cons_self _ _)
    generalize (((sortedMarketCaps cs).drop 4).map (fun mc => mc.RawMarketCap)).sum = S
      at hcond hle
    generalize ((sortedMarketCaps cs)[4]).RawMarketCap = x at hcond hle hxpos
    simp only [MAX_RELATIVE_CAP, Nat.zero_add] at hcond
    norm_num at hcond
    linarith
  · intro x rest hx
    rw [hk] at hx ⊢
    have := hstop x rest hx
    rw [hr]
    simpa using this

/-- Before the SPICE correction every relative cap lies between `-1/5` and
`MAX_RELATIVE_CAP`. -/
theorem capsBeforeSpice_bounds (cs : List CryptoIndexConstituent)
    (hpos : ∀ c ∈ cs, 0 < c.Price ∧ 0 < c.CirculatingSupply) :
    ∀ mc ∈ capsBeforeSpice cs, -1 / 5 ≤ mc.RelativeCap ∧ mc.RelativeCap ≤ MAX_RELATIVE_CAP := by
  intro mc hmc
  obtain ⟨hlen, h4, hrest, hstop⟩ := step2_facts cs hpos
  have hLpos := sortedMarketCaps_pos cs hpos
  unfold capsBeforeSpice at hmc
  rcases List.mem_append.1 hmc with h | h
  · obtain ⟨m, _, rfl⟩ := List.mem_map.1 h
    simp only [capOffender, MAX_RELATIVE_CAP]
    norm_num
  · obtain ⟨m, hm, rfl⟩ := List.mem_map.1 h
    have hDpos : ∀ mc ∈ (sortedMarketCaps cs).drop (numOffendors cs), 0 < mc.RawMarketCap :=
      fun mc hmc => hLpos mc (List.mem_of_mem_drop hmc)
    have hsorted : ((sortedMarketCaps cs).drop (numOffendors cs)).Pairwise
        (fun a b => b.RawMarketCap ≤ a.RawMarketCap) :=
      (sortedMarketCaps_sorted cs).sublist (List.drop_sublist _ _)
    cases hD : (sortedMarketCaps cs).drop (numOffendors cs) with
    | nil => rw [hD] at hm; simp at hm
    | cons x rest =>
      have hexit := hstop x rest hD
      have hxR : x.RawMarketCap ≤ restMarketCap cs := by
        rw [hrest]; exact raw_le_sum _ hDpos x (by rw [hD]; exact List.mem_cons_self _ _)
      have hmx : m.RawMarketCap ≤ x.RawMarketCap := by
        rw [hD] at hm hsorted
        rcases List.mem_cons.1 hm with rfl | hm'
        · exact le_refl _
        · exact (List.pairwise_cons.1 hsorted).1 m hm'
      have hmpos : 0 < m.RawMarketCap := hDpos m hm
      have hRpos : 0 < restMarketCap cs := lt_of_lt_of_le (lt_of_lt_of_le hmpos hmx) hxR
      simp only [capNonOffender, MAX_RELATIVE_CAP] at hexit ⊢
      generalize restMarketCap cs = R at hexit hxR hRpos ⊢
      generalize m.RawMarketCap = a at hmx hmpos ⊢
      generalize x.RawMarketCap = b at hexit hxR hmx
      generalize numOffendors cs = K at h4 hexit ⊢
      rw [div_mul_eq_mul_div, le_div_iff₀ hRpos, div_le_iff₀ hRpos]
      interval_cases K <;> norm_num at hexit ⊢ <;> constructor <;> nlinarith

theorem sum_map_scaled (l : List MarketCap) (R c : ℚ) :
    (l.map (fun m => m.RawMarketCap / R * c)).sum =
      (l.map (fun m => m.RawMarketCap)).sum / R * c := by
  induction l with
  | nil => simp
  | cons x xs ih => simp only [List.map_cons, List.sum_cons, ih]; ring

theorem sum_map_capOffender (l : List MarketCap) (k : Nat) (u : ℚ) :
    ((l.map (capOffender k u)).map (fun m => m.RelativeCap)).sum =
      (l.length : ℚ) * MAX_RELATIVE_CAP := by
  induction l with
  | nil => simp
  | cons x xs ih =>
    simp only [List.map_cons, List.sum_cons, ih, List.length_cons, capOffender]
    push_cast; ring

theorem sortedMarketCaps_length (cs : List CryptoIndexConstituent) :
    (sortedMarketCaps cs).length = cs.length := by
  rw [(sortedMarketCaps_perm cs).length_eq, List.length_map]

/-- When step 2 leaves at least one entry that is not an offender, the relative
caps before the SPICE correction sum to `1`. -/
theorem capsBeforeSpice_sum (cs : List CryptoIndexConstituent)
    (hpos : ∀ c ∈ cs, 0 < c.Price ∧ 0 < c.CirculatingSupply)
    (hnon : numOffendors cs < cs.length) :
    ((capsBeforeSpice cs).map (fun m => m.RelativeCap)).sum = 1 := by
  obtain ⟨hlen, _, hrest, _⟩ := step2_facts cs hpos
  have hLpos := sortedMarketCaps_pos cs hpos
  have hlt : numOffendors cs < (sortedMarketCaps cs).length := by
    rw [sortedMarketCaps_length]; exact hnon
  have hRpos : 0 < restMarketCap cs := by
    have hdrop := List.drop_eq_getElem_cons hlt
    have hDpos : ∀ mc ∈ (sortedMarketCaps cs).drop (numOffendors cs), 0 < mc.RawMarketCap :=
      fun mc hmc => hLpos mc (List.mem_of_mem_drop hmc)
    have hle := raw_le_sum _ hDpos ((sortedMarketCaps cs)[numOffendors cs])
      (by rw [hdrop]; exact List.mem_cons_self _ _)
    rw [← hrest] at hle
    exact lt_of_lt_of_le (hLpos _ (List.getElem_mem _)) hle
  unfold capsBeforeSpice
  rw [List.map_append, List.sum_append, sum_map_capOffender, List.map_map]
  have hnonoff : ((fun m : MarketCap => m.RelativeCap) ∘
      capNonOffender (numOffendors cs) (restMarketCap cs)) =
      fun m => m.RawMarketCap / restMarketCap cs *
        (1 - MAX_RELATIVE_CAP * (numOffendors cs : ℚ)) := by
    funext m; rfl
  rw [hnonoff, sum_map_scaled, ← hrest, div_self (ne_of_gt hRpos), List.length_take,
    Nat.min_eq_left hlen]
  ring

theorem capsBeforeSpice_symbols (cs : List CryptoIndexConstituent) :
    (capsBeforeSpice cs).map (fun m => m.Symbol) =
      (sortedMarketCaps cs).map (fun m => m.Symbol) := by
  unfold capsBeforeSpice
  rw [List.map_append, List.map_map, List.map_map]
  have h1 : ((fun m : MarketCap => m.Symbol) ∘
      capOffender (numOffendors cs) (uncappedConstituentsMc cs)) = fun m => m.Symbol := by
    funext m; rfl
  have h2 : ((fun m : MarketCap => m.Symbol) ∘
      capNonOffender (numOffendors cs) (restMarketCap cs)) = fun m => m.Symbol := by
    funext m; rfl
  rw [h1, h2, ← List.map_append, List.take_append_drop]

theorem capsBeforeSpice_symbols_perm (cs : List CryptoIndexConstituent) :
    ((capsBeforeSpice cs).map (fun m => m.Symbol)).Perm (cs.map (fun c => c.Asset.Symbol)) := by
  rw [capsBeforeSpice_symbols]
  have h := (sortedMarketCaps_perm cs).map (fun m => m.Symbol)
  rw [List.map_map] at h
  exact h

theorem correctSpice_symbol (f d : ℚ) (mc : MarketCap) :
    (correctSpice f d mc).Symbol = mc.Symbol := by
  unfold correctSpice; split <;> rfl

/-- Step 5 on a slice that has a `SPICE` entry: it does not panic, keeps the
symbols, and keeps every relative cap at or below `MAX_RELATIVE_CAP` when the
relative caps were between `-1/5` and `MAX_RELATIVE_CAP`. -/
theorem spiceStep_bounds (mcs : List MarketCap)
    (hspice : ∃ mc ∈ mcs, mc.Symbol = "SPICE")
    (hb : ∀ mc ∈ mcs, -1 / 5 ≤ mc.RelativeCap ∧ mc.RelativeCap ≤ MAX_RELATIVE_CAP) :
    ∃ out, spiceStep mcs = some out ∧
      out.map (fun m => m.Symbol) = mcs.map (fun m => m.Symbol) ∧
      ∀ mc ∈ out, mc.RelativeCap ≤ MAX_RELATIVE_CAP := by
  unfold spiceStep
  cases hf : mcs.find? (fun mc => mc.Symbol = "SPICE") with
  | none =>
    obtain ⟨mc, hmc, hs⟩ := hspice
    have := List.find?_eq_none.1 hf mc hmc
    simp [hs] at this
  | some spice =>
    have hsmem := List.mem_of_find?_eq_some hf
    have hsb := hb spice hsmem
    simp only
    split
    · rename_i hd
      refine ⟨_, rfl, ?_, ?_⟩
      · rw [List.map_map]
        apply List.map_congr_left
        intro m _
        exact correctSpice_symbol _ _ m
      · intro mc hmc
        obtain ⟨m, hm, rfl⟩ := List.mem_map.1 hmc
        have hmb := hb m hm
        unfold correctSpice
        split
        · simp only [MAX_RELATIVE_CAP]; norm_num
        · simp only [MAX_RELATIVE_CAP] at hmb hsb ⊢
          generalize m.RelativeCap = r at hmb ⊢
          generalize spice.RelativeCap = w at hsb hd ⊢
          by_cases hr : 0 ≤ r
          · nlinarith [hmb.1, hmb.2, hsb.1]
          · push_neg at hr
            nlinarith [hmb.1, hmb.2, hsb.1]
    · exact ⟨_, rfl, rfl, fun mc hmc => (hb mc hmc).2⟩

/-- Step 5 leaves the slice as it is when the relative cap of every `SPICE`
entry is at least `0.025`. -/
theorem spiceStep_no_correction (mcs : List MarketCap)
    (hspice : ∃ mc ∈ mcs, mc.Symbol = "SPICE")
    (hno : ∀ mc ∈ mcs, mc.Symbol = "SPICE" → 25 / 1000 ≤ mc.RelativeCap) :
    spiceStep mcs = some mcs := by
  unfold spiceStep
  cases hf : mcs.find? (fun mc => mc.Symbol = "SPICE") with
  | none =>
    obtain ⟨mc, hmc, hs⟩ := hspice
    have := List.find?_eq_none.1 hf mc hmc
    simp [hs] at this
  | some spice =>
    have hsmem := List.mem_of_find?_eq_some hf
    have hsym : spice.Symbol = "SPICE" := by
      have := List.find?_some hf
      simpa using this
    have := hno spice hsmem hsym
    simp only
    rw [if_neg (by linarith)]

theorem writeBack_eq_map (mcs : List MarketCap) (cs : List CryptoIndexConstituent) :
    writeBack mcs cs = cs.map (fun c => mcs.foldl (fun c mc => assignWeight mc c) c) := by
  unfold writeBack
  induction mcs generalizing cs with
  | nil => simp
  | cons m ms ih =>
    simp only [List.foldl_cons]
    rw [ih]
    simp [writeBackOne, List.map_map, Function.comp_def]

theorem assignWeight_symbol (mc : MarketCap) (c : CryptoIndexConstituent) :
    (assignWeight mc c).Asset.Symbol = c.Asset.Symbol := by
  unfold assignWeight; split <;> rfl

theorem foldl_assignWeight_symbol (mcs : List MarketCap) (c : CryptoIndexConstituent) :
    (mcs.foldl (fun c mc => assignWeight mc c) c).Asset.Symbol = c.Asset.Symbol := by
  induction mcs generalizing c with
  | nil => rfl
  | cons m ms ih => simp only [List.foldl_cons]; rw [ih, assignWeight_symbol]

theorem foldl_assignWeight_of_not_mem (mcs : List MarketCap) (c : CryptoIndexConstituent)
    (h : ∀ m ∈ mcs, m.Symbol ≠ c.Asset.Symbol) :
    mcs.foldl (fun c mc => assignWeight mc c) c = c := by
  induction mcs generalizing c with
  | nil => rfl
  | cons m ms ih =>
    simp only [List.foldl_cons]
    have hm : assignWeight m c = c := by
      unfold assignWeight; rw [if_neg (h m (List.mem_cons_self _ _))]
    rw [hm]
    exact ih c (fun m' hm' => h m' (List.mem_cons_of_mem _ hm'))

/-- With pairwise distinct symbols in `marketCaps`, a constituent ends step 6
with the relative cap of the entry that carries its symbol as its weight. -/
theorem foldl_assignWeight_of_mem (mcs : List MarketCap) (c : CryptoIndexConstituent)
    (hnd : (mcs.map (fun m => m.Symbol)).Nodup) (mc : MarketCap) (hmc : mc ∈ mcs)
    (hsym : mc.Symbol = c.Asset.Symbol) :
    (mcs.foldl (fun c mc => assignWeight mc c) c).Weight = mc.RelativeCap := by
  induction mcs generalizing c with
  | nil => simp at hmc
  | cons m ms ih =>
    simp only [List.foldl_cons]
    rw [List.map_cons, List.nodup_cons] at hnd
    rcases List.mem_cons.1 hmc with rfl | hms
    · rw [foldl_assignWeight_of_not_mem]
      · unfold assignWeight; rw [if_pos hsym]
      · intro m' hm' heq
        rw [assignWeight_symbol, ← hsym] at heq
        exact hnd.1 (List.mem_map.2 ⟨m', hm', heq⟩)
    · exact ih (assignWeight m c) hnd.2 hms (by rw [assignWeight_symbol]; exact hsym)

/-- With pairwise distinct symbols that are those of the constituents, the
weights step 6 writes back sum to the sum of the relative caps. -/
theorem writeBack_sum (mcs : List MarketCap) (cs : List CryptoIndexConstituent)
    (hnd : (mcs.map (fun m => m.Symbol)).Nodup)
    (hperm : (mcs.map (fun m => m.Symbol)).Perm (cs.map (fun c => c.Asset.Symbol))) :
    ((writeBack mcs cs).map (fun c => c.Weight)).sum = (mcs.map (fun m => m.RelativeCap)).sum := by
  have hleft : (writeBack mcs cs).map (fun c => c.Weight) =
      (cs.map (fun c => c.Asset.Symbol)).map
        (fun s => (mcs.foldl (fun c mc => assignWeight mc c) (constituentOf s 0 0)).Weight) := by
    rw [writeBack_eq_map, List.map_map, List.map_map]
    apply List.map_congr_left
    intro c hc
    have hmem : c.Asset.Symbol ∈ mcs.map (fun m => m.Symbol) :=
      hperm.mem_iff.2 (List.mem_map.2 ⟨c, hc, rfl⟩)
    obtain ⟨mc, hmc, hsym⟩ := List.mem_map.1 hmem
    simp only [Function.comp]
    rw [foldl_assignWeight_of_mem mcs c hnd mc hmc hsym,
      foldl_assignWeight_of_mem mcs (constituentOf c.Asset.Symbol 0 0) hnd mc hmc hsym]
  have hright : (mcs.map (fun m => m.Symbol)).map
      (fun s => (mcs.foldl (fun c mc => assignWeight mc c) (constituentOf s 0 0)).Weight) =
      mcs.map (fun m => m.RelativeCap) := by
    rw [List.map_map]
    apply List.map_congr_left
    intro m hm
    simp only [Function.comp]
    exact foldl_assignWeight_of_mem mcs (constituentOf m.Symbol 0 0) hnd m hm rfl
  rw [hleft, ← hright]
  exact (hperm.symm.map _).sum_eq

theorem exists_spice_entry (cs : List CryptoIndexConstituent)
    (hspice : ∃ c ∈ cs, c.Asset.Symbol = "SPICE") :
    ∃ mc ∈ capsBeforeSpice cs, mc.Symbol = "SPICE" := by
  obtain ⟨c, hc, hs⟩ := hspice
  have hmem : "SPICE" ∈ (capsBeforeSpice cs).map (fun m => m.Symbol) :=
    (capsBeforeSpice_symbols_perm cs).mem_iff.2 (List.mem_map.2 ⟨c, hc, hs⟩)
  obtain ⟨mc, hmc, hsym⟩ := List.mem_map.1 hmem
  exact ⟨mc, hmc, hsym⟩

theorem CalculateWeights_of_spiceStep (cs : List CryptoIndexConstituent) (hne : cs ≠ [])
    (mcs : List MarketCap) (hstep : spiceStep (capsBeforeSpice cs) = some mcs) :
    CalculateWeights "SCIFI" cs = some (writeBack mcs cs) := by
  unfold CalculateWeights
  rw [if_pos rfl]
  cases cs with
  | nil => exact absurd rfl hne
  | cons c cs' => simp only [hstep]

/-! ### C11: every weight is capped -/

/-- C11. For every non-empty list of constituents with pairwise distinct
symbols, positive price and circulating supply, and a `SPICE` constituent,
`CalculateWeights` for index `SCIFI` returns (it does not panic), keeps the
constituents' symbols, and leaves every `Weight` at most `MAX_RELATIVE_CAP`;
and every entry counted as an offender in step 2 (the first `numOffendors`
entries of the sorted slice) has relative cap exactly `MAX_RELATIVE_CAP` before
the SPICE correction of step 5. Arithmetic is over the exact rationals. -/
theorem C11_weights_at_most_cap (cs : List CryptoIndexConstituent) (hne : cs ≠ [])
    (hnd : (cs.map (fun c => c.Asset.Symbol)).Nodup)
    (hpos : ∀ c ∈ cs, 0 < c.Price ∧ 0 < c.CirculatingSupply)
    (hspice : ∃ c ∈ cs, c.Asset.Symbol = "SPICE") :
    ∃ out, CalculateWeights "SCIFI" cs = some out ∧
      out.map (fun c => c.Asset.Symbol) = cs.map (fun c => c.Asset.Symbol) ∧
      (∀ c ∈ out, c.Weight ≤ MAX_RELATIVE_CAP) ∧
      (∀ mc ∈ (capsBeforeSpice cs).take (numOffendors cs),
        mc.RelativeCap = MAX_RELATIVE_CAP) := by
  obtain ⟨mcs, hstep, hsyms, hle⟩ :=
    spiceStep_bounds _ (exists_spice_entry cs hspice) (capsBeforeSpice_bounds cs hpos)
  have hperm : (mcs.map (fun m => m.Symbol)).Perm (cs.map (fun c => c.Asset.Symbol)) := by
    rw [hsyms]; exact capsBeforeSpice_symbols_perm cs
  have hmnd : (mcs.map (fun m => m.Symbol)).Nodup := hperm.nodup_iff.2 hnd
  refine ⟨writeBack mcs cs, CalculateWeights_of_spiceStep cs hne mcs hstep, ?_, ?_, ?_⟩
  · rw [writeBack_eq_map, List.map_map]
    apply List.map_congr_left
    intro c _
    exact foldl_assignWeight_symbol mcs c
  · intro c hc
    rw [writeBack_eq_map] at hc
    obtain ⟨c0, hc0, rfl⟩ := List.mem_map.1 hc
    have hmem : c0.Asset.Symbol ∈ mcs.map (fun m => m.Symbol) :=
      hperm.mem_iff.2 (List.mem_map.2 ⟨c0, hc0, rfl⟩)
    obtain ⟨mc, hmc, hsym⟩ := List.mem_map.1 hmem
    rw [foldl_assignWeight_of_mem mcs c0 hmnd mc hmc hsym]
    exact hle mc hmc
  · intro mc hmc
    obtain ⟨hlen, _, _, _⟩ := step2_facts cs hpos
    unfold capsBeforeSpice at hmc
    rw [List.take_append_of_le_length (by simp [hlen])] at hmc
    have hmc' := List.mem_of_mem_take hmc
    obtain ⟨m, _, rfl⟩ := List.mem_map.1 hmc'
    rfl

/-- C11 on a basket with four offenders and a fifth constituent of negative
weight: market caps `1000`, `100`, `10` (`SPICE`), `1` and `1/10`. -/
theorem C11_weights_at_most_cap_witness :
    ∃ out, CalculateWeights "SCIFI" steepBasket = some out ∧
      out.map (fun c => c.Asset.Symbol) = steepBasket.map (fun c => c.Asset.Symbol) ∧
      (∀ c ∈ out, c.Weight ≤ MAX_RELATIVE_CAP) ∧
      (∀ mc ∈ (capsBeforeSpice steepBasket).take (numOffendors steepBasket),
        mc.RelativeCap = MAX_RELATIVE_CAP) :=
  C11_weights_at_most_cap steepBasket (by decide) (by decide) (by decide!) (by decide)

/-! ### C12: the sum of the weights -/

/-- C12, as stated, fails in two ways. For the single constituent `SPICE` (every
entry an offender) the only weight is `3/10`. For the basket with market caps
`25`, `25`, `1` (`SPICE`), `25`, `24` the initial SPICE weight is `1/100`, the
correction of step 5 applies, and the weights written back are `197/800`,
`197/800`, `1/40`, `197/800`, `591/2500`, whose sum is `20003/20000`. Both lists
are non-empty, have pairwise distinct symbols, positive prices and supplies, and
a `SPICE` constituent. -/
theorem C12_counterexample_sum_not_one :
    ((soloSpice.map (fun c => c.Asset.Symbol)).Nodup ∧
      (∀ c ∈ soloSpice, 0 < c.Price ∧ 0 < c.CirculatingSupply) ∧
      (CalculateWeights "SCIFI" soloSpice).map (fun out => out.map (fun c => c.Weight)) =
        some [3 / 10]) ∧
    ((smallSpiceBasket.map (fun c => c.Asset.Symbol)).Nodup ∧
      (∀ c ∈ smallSpiceBasket, 0 < c.Price ∧ 0 < c.CirculatingSupply) ∧
      (capsBeforeSpice smallSpiceBasket).map (fun m => (m.Symbol, m.RelativeCap)) =
        [("AAVE", 1 / 4), ("UNI", 1 / 4), ("SNX", 1 / 4), ("MKR", 6 / 25), ("SPICE", 1 / 100)] ∧
      (CalculateWeights "SCIFI" smallSpiceBasket).map (fun out => out.map (fun c => c.Weight)) =
        some [197 / 800, 197 / 800, 1 / 40, 197 / 800, 591 / 2500] ∧
      ([197 / 800, 197 / 800, 1 / 40, 197 / 800, 591 / 2500] : List ℚ).sum = 20003 / 20000) := by
  decide!

/-- C12, amended. For every non-empty list of constituents with pairwise
distinct symbols, positive price and circulating supply, and a `SPICE`
constituent: when step 2 leaves at least one constituent that is not an
offender and the SPICE correction of step 5 does not apply (the initial SPICE
weight is at least `0.025`), `CalculateWeights` for index `SCIFI` returns and the
weights written back sum to exactly `1`. Arithmetic is over the exact
rationals. -/
theorem C12_weights_sum_to_one (cs : List CryptoIndexConstituent) (hne : cs ≠ [])
    (hnd : (cs.map (fun c => c.Asset.Symbol)).Nodup)
    (hpos : ∀ c ∈ cs, 0 < c.Price ∧ 0 < c.CirculatingSupply)
    (hspice : ∃ c ∈ cs, c.Asset.Symbol = "SPICE")
    (hnon : numOffendors cs < cs.length)
    (hno : ∀ mc ∈ capsBeforeSpice cs, mc.Symbol = "SPICE" → 25 / 1000 ≤ mc.RelativeCap) :
    ∃ out, CalculateWeights "SCIFI" cs = some out ∧
      (out.map (fun c => c.Weight)).sum = 1 := by
  have hstep := spiceStep_no_correction _ (exists_spice_entry cs hspice) hno
  refine ⟨_, CalculateWeights_of_spiceStep cs hne _ hstep, ?_⟩
  rw [writeBack_sum _ cs ((capsBeforeSpice_symbols_perm cs).nodup_iff.2 hnd)
    (capsBeforeSpice_symbols_perm cs)]
  exact capsBeforeSpice_sum cs hpos hnon

/-- C12, amended, on four constituents of equal market cap, one of them
`SPICE`: no offender, initial SPICE weight `1/4`. -/
theorem C12_weights_sum_to_one_witness :
    ∃ out, CalculateWeights "SCIFI" evenBasket = some out ∧
      (out.map (fun c => c.Weight)).sum = 1 :=
  C12_weights_sum_to_one evenBasket (by decide) (by decide) (by decide!) (by decide)
    (by decide!) (by decide!)

/-! ### The sum of the weights when the SPICE correction applies -/

theorem sum_correctSpice_of_no_spice (mcs : List MarketCap) (f d : ℚ)
    (hno : ∀ m ∈ mcs, m.Symbol ≠ "SPICE") :
    ((mcs.map (correctSpice f d)).map (fun m => m.RelativeCap)).sum =
      (1 - d) * (mcs.map (fun m => m.RelativeCap)).sum := by
  induction mcs with
  | nil => simp
  | cons m ms ih =>
    have hm : (correctSpice f d m).RelativeCap = m.RelativeCap - d * m.RelativeCap := by
      unfold correctSpice; rw [if_neg (hno m (List.mem_cons_self _ _))]
    simp only [List.map_cons, List.sum_cons, hm,
      ih (fun m' hm' => hno m' (List.mem_cons_of_mem _ hm'))]
    ring

theorem sum_correctSpice (mcs : List MarketCap) (f d : ℚ)
    (hnd : (mcs.map (fun m => m.Symbol)).Nodup) (spice : MarketCap) (hs : spice ∈ mcs)
    (hsym : spice.Symbol = "SPICE") :
    ((mcs.map (correctSpice f d)).map (fun m => m.RelativeCap)).sum =
      25 / 1000 + (1 - d) * ((mcs.map (fun m => m.RelativeCap)).sum - spice.RelativeCap) := by
  induction mcs with
  | nil => simp at hs
  | cons m ms ih =>
    rw [List.map_cons, List.nodup_cons] at hnd
    rcases List.mem_cons.1 hs with rfl | hms
    · have hno : ∀ m' ∈ ms, m'.Symbol ≠ "SPICE" := by
        intro m' hm' heq
        exact hnd.1 (List.mem_map.2 ⟨m', hm', by rw [heq, hsym]⟩)
      have hm : (correctSpice f d spice).RelativeCap = 25 / 1000 := by
        unfold correctSpice; rw [if_pos hsym]
      simp only [List.map_cons, List.sum_cons, hm, sum_correctSpice_of_no_spice ms f d hno]
      ring
    · have hne : m.Symbol ≠ "SPICE" := by
        intro heq
        exact hnd.1 (List.mem_map.2 ⟨spice, hms, by rw [heq, hsym]⟩)
      have hm : (correctSpice f d m).RelativeCap = m.RelativeCap - d * m.RelativeCap := by
        unfold correctSpice; rw [if_neg hne]
      simp only [List.map_cons, List.sum_cons, hm, ih hnd.2 hms]
      ring

/-- When step 2 leaves at least one constituent that is not an offender and the
initial SPICE weight `w` is below `0.025`, so that the correction of step 5
applies, the weights written back sum to `1 + w * (0.025 - w)`: the other
constituents give up `(0.025 - w) * (1 - w)` in total while `SPICE` gains
`0.025 - w`. -/
theorem CalculateWeights_sum_with_correction (cs : List CryptoIndexConstituent)
    (hne : cs ≠ []) (hnd : (cs.map (fun c => c.Asset.Symbol)).Nodup)
    (hpos : ∀ c ∈ cs, 0 < c.Price ∧ 0 < c.CirculatingSupply)
    (hnon : numOffendors cs < cs.length)
    (spice : MarketCap) (hs : spice ∈ capsBeforeSpice cs) (hsym : spice.Symbol = "SPICE")
    (hlt : spice.RelativeCap < 25 / 1000) :
    ∃ out, CalculateWeights "SCIFI" cs = some out ∧
      (out.map (fun c => c.Weight)).sum =
        1 + spice.RelativeCap * (25 / 1000 - spice.RelativeCap) := by
  have hmnd : ((capsBeforeSpice cs).map (fun m => m.Symbol)).Nodup :=
    (capsBeforeSpice_symbols_perm cs).nodup_iff.2 hnd
  have hstep : spiceStep (capsBeforeSpice cs) = some ((capsBeforeSpice cs).map
      (correctSpice (25 / 1000 / spice.RelativeCap) (25 / 1000 - spice.RelativeCap))) := by
    unfold spiceStep
    cases hf : (capsBeforeSpice cs).find? (fun mc => mc.Symbol = "SPICE") with
    | none =>
      have := List.find?_eq_none.1 hf spice hs
      simp [hsym] at this
    | some s' =>
      have hs' := List.mem_of_find?_eq_some hf
      have hsym' : s'.Symbol = "SPICE" := by
        have := List.find?_some hf
        simpa using this
      have heq : s' = spice :=
        List.inj_on_of_nodup_map hmnd hs' hs (by rw [hsym', hsym])
      subst heq
      simp only
      rw [if_pos (by linarith)]
  have hsyms : ((capsBeforeSpice cs).map
      (correctSpice (25 / 1000 / spice.RelativeCap) (25 / 1000 - spice.RelativeCap))).map
        (fun m => m.Symbol) = (capsBeforeSpice cs).map (fun m => m.Symbol) := by
    rw [List.map_map]
    apply List.map_congr_left
    intro m _
    exact correctSpice_symbol _ _ m
  refine ⟨_, CalculateWeights_of_spiceStep cs hne _ hstep, ?_⟩
  rw [writeBack_sum _ cs (by rw [hsyms]; exact hmnd)
    (by rw [hsyms]; exact capsBeforeSpice_symbols_perm cs),
    sum_correctSpice _ _ _ hmnd spice hs hsym, capsBeforeSpice_sum cs hpos hnon]
  ring

end IndexCalculation
